import Mathlib

/-!
# Verification of the acquisition-lifecycle approval workflow engine

Shallow embedding of the rules-driven approval-workflow engine of the
repository (`backend/app/services/workflow.py`, `backend/app/api/requests.py`,
`backend/app/api/intake.py`) together with proofs of the specified
properties: the single-active-step invariant, step materialization with
conditional skipping, approval advancement, error handling, request-number
generation, the step-name to request-status mapping, progress computation,
and advisory-trigger resilience.

Machine conventions: timestamps are natural numbers (`datetime.utcnow()`
values are opaque, only `now + timedelta(days=sla)` matters, modelled as
`now + sla`); database rows are Lean structures; SQLAlchemy queries are
list operations (`ORDER BY step_number` is a stable insertion sort,
`.first()` is `List.find?` / a minimum computation); Python exceptions are
`Except.error`; a Python function returning an `{'error': ...}` dict is an
explicit error constructor distinct from an exception.
-/

/-- A scalar Python value stored in a request attribute (DB column value).
`Option PyVal` with `none` models Python `None` (NULL column or missing
attribute, since `getattr(request, field, None)` defaults to `None`). -/
inductive PyVal where
  | s (v : String)
  | i (v : Int)
  | b (v : Bool)
deriving DecidableEq

/-- A JSON value, the result of `json.loads` on a condition-rule string.
Objects are association lists (Python dicts with string keys). -/
inductive Json where
  | null
  | bool (b : Bool)
  | num (n : Int)
  | str (s : String)
  | arr (xs : List Json)
  | obj (kvs : List (String × Json))

mutual

/-- Structural boolean equality on JSON values (Python `==` between two
values freshly loaded from JSON). -/
def Json.beq : Json → Json → Bool
  | .null, .null => true
  | .bool a, .bool b => a == b
  | .num a, .num b => a == b
  | .str a, .str b => a == b
  | .arr xs, .arr ys => Json.beqList xs ys
  | .obj xs, .obj ys => Json.beqObj xs ys
  | _, _ => false

/-- Elementwise equality of JSON arrays. -/
def Json.beqList : List Json → List Json → Bool
  | [], [] => true
  | x :: xs, y :: ys => Json.beq x y && Json.beqList xs ys
  | _, _ => false

/-- Entrywise equality of JSON objects (insertion order included, matching
the association-list representation). -/
def Json.beqObj : List (String × Json) → List (String × Json) → Bool
  | [], [] => true
  | (k, x) :: xs, (l, y) :: ys => k == l && Json.beq x y && Json.beqObj xs ys
  | _, _ => false

end

instance : BEq Json := ⟨Json.beq⟩

/-- A condition-rule value as seen by `_evaluate_step_condition` after the
`json.loads` attempt: either the parse raised (`json.JSONDecodeError` /
`TypeError`, both caught) or it produced a JSON value. -/
inductive RawRule where
  | malformed
  | parsed (j : Json)

/-- Python substring containment `pat in s` for strings. -/
def strContains (s pat : String) : Bool :=
  pat.isEmpty || (s.splitOn pat).length != 1

/-- Python truthiness of a JSON-derived value
(`None`, `False`, `0`, `''`, `[]`, `{}` are falsy). -/
def pyFalsy : Json → Bool
  | .null => true
  | .bool b => !b
  | .num n => n == 0
  | .str s => s.isEmpty
  | .arr xs => xs.isEmpty
  | .obj kvs => kvs.isEmpty

/-- `dict.get(k)` on a JSON object association list. -/
def jget (kvs : List (String × Json)) (k : String) : Option Json :=
  (kvs.find? (fun p => p.1 == k)).map (fun p => p.2)

/-- `dict.get(k, d)`: lookup with default. `json` `null` loads as Python
`None`, which is also the default of `dict.get`, so the default is `.null`. -/
def jgetD (kvs : List (String × Json)) (k : String) (d : Json) : Json :=
  (jget kvs k).getD d

/-- Python `==` between a request attribute value and a JSON value.
`None == None` is true; `bool` is an `int` in Python so `True == 1`;
containers never equal scalars. -/
def pyEq : Option PyVal → Json → Bool
  | none, .null => true
  | some (.s a), .str b => a == b
  | some (.i a), .num b => a == b
  | some (.b a), .bool b => a == b
  | some (.b a), .num b => (if a then (1 : Int) else 0) == b
  | some (.i a), .bool b => a == (if b then (1 : Int) else 0)
  | _, _ => false

/-- Python `value in container` where `container` came from JSON.
Iterables test membership (via `==`); `value in <str>` is substring and
requires a string operand; non-iterables raise `TypeError`. -/
def pyIn (v : Option PyVal) : Json → Except String Bool
  | .arr xs => .ok (xs.any (pyEq v))
  | .str s =>
      match v with
      | some (.s t) => .ok (strContains s t)
      | _ => .error "TypeError: a string is required for membership in str"
  | .obj kvs =>
      match v with
      | some (.s t) => .ok (kvs.any (fun p => p.1 == t))
      | _ => .ok false
  | _ => .error "TypeError: argument is not iterable"

/-- Python `key in container` for a string key (the `'allOf' in conditions`
check): dict key membership, substring for strings, element membership for
lists, `TypeError` otherwise. -/
def pyContainsKey (j : Json) (k : String) : Except String Bool :=
  match j with
  | .obj kvs => .ok (kvs.any (fun p => p.1 == k))
  | .str s => .ok (strContains s k)
  | .arr xs => .ok (xs.any (fun x => x == Json.str k))
  | _ => .error "TypeError: argument is not iterable"

/-- Python `container[k]` for a string key: dict subscription; strings and
lists require integer indices, scalars are not subscriptable. -/
def pySubscript (j : Json) (k : String) : Except String Json :=
  match j with
  | .obj kvs =>
      match jget kvs k with
      | some v => .ok v
      | none => .error "KeyError"
  | _ => .error "TypeError: value is not subscriptable by a string"

/-- Python iteration `for c in v`: lists yield elements, strings yield
one-character strings, dicts yield their keys, scalars raise. -/
def pyIter : Json → Except String (List Json)
  | .arr xs => .ok xs
  | .str s => .ok (s.toList.map (fun c => Json.str (String.singleton c)))
  | .obj kvs => .ok (kvs.map (fun p => Json.str p.1))
  | _ => .error "TypeError: value is not iterable"

/-- `_eval_single(condition, request)` from `workflow.py`: a single field
comparison. A non-dict condition raises (`.get` missing); a falsy `field`
or `operator` short-circuits to `True`; `getattr(request, field, None)`
requires `field` to be a string; an unrecognized operator yields `True`. -/
def evalSingle (j : Json) (attrs : String → Option PyVal) : Except String Bool :=
  match j with
  | .obj kvs =>
      let fieldJ := jgetD kvs "field" .null
      let opJ := jgetD kvs "operator" .null
      if pyFalsy fieldJ || pyFalsy opJ then .ok true
      else
        match fieldJ with
        | .str f =>
            let value := attrs f
            if opJ == .str "in" then pyIn value (jgetD kvs "values" (.arr []))
            else if opJ == .str "not_in" then
              match pyIn value (jgetD kvs "values" (.arr [])) with
              | .ok b => .ok (!b)
              | .error e => .error e
            else if opJ == .str "==" then .ok (pyEq value (jgetD kvs "value" .null))
            else if opJ == .str "!=" then .ok (!pyEq value (jgetD kvs "value" .null))
            else if opJ == .str "exists" then .ok value.isSome
            else .ok true
        | _ => .error "TypeError: attribute name must be string"
  | _ => .error "AttributeError: object has no attribute get"

/-- Lazy Python `all(f(c) for c in cs)`: stops at the first `False`, so a
later element that would raise is never evaluated. -/
def allLazy (f : Json → Except String Bool) : List Json → Except String Bool
  | [] => .ok true
  | c :: cs =>
      match f c with
      | .error e => .error e
      | .ok false => .ok false
      | .ok true => allLazy f cs

/-- Lazy Python `any(f(c) for c in cs)`: stops at the first `True`. -/
def anyLazy (f : Json → Except String Bool) : List Json → Except String Bool
  | [] => .ok false
  | c :: cs =>
      match f c with
      | .error e => .error e
      | .ok true => .ok true
      | .ok false => anyLazy f cs

/-- `_evaluate_step_condition(condition_json, request)` from `workflow.py`:
an unparsable rule is included (`True`); otherwise `allOf` / `anyOf`
combinators (checked in that order via Python `in`) over single
conditions, defaulting to evaluating the value itself as one condition. -/
def evalStepCondition (r : RawRule) (attrs : String → Option PyVal) :
    Except String Bool :=
  match r with
  | .malformed => .ok true
  | .parsed j =>
      match pyContainsKey j "allOf" with
      | .error e => .error e
      | .ok true =>
          match pySubscript j "allOf" with
          | .error e => .error e
          | .ok items =>
              match pyIter items with
              | .error e => .error e
              | .ok cs => allLazy (fun c => evalSingle c attrs) cs
      | .ok false =>
          match pyContainsKey j "anyOf" with
          | .error e => .error e
          | .ok true =>
              match pySubscript j "anyOf" with
              | .error e => .error e
              | .ok items =>
                  match pyIter items with
                  | .error e => .error e
                  | .ok cs => anyLazy (fun c => evalSingle c attrs) cs
          | .ok false => evalSingle j attrs

/-- `_step_to_status`'s `name_map` dict from `workflow.py`, in source order. -/
def nameMap : List (String × String) :=
  [ ("ISS", "iss_review"),
    ("ISS Review", "iss_review"),
    ("ASR", "asr_review"),
    ("ASR Review", "asr_review"),
    ("Finance", "finance_review"),
    ("Finance Review", "finance_review"),
    ("KO Review", "ko_review"),
    ("KO Action", "ko_review"),
    ("KO Execution", "ko_review"),
    ("KO Determination", "ko_review"),
    ("KO Contract Mod", "ko_review"),
    ("Legal Review", "legal_review"),
    ("CIO Approval", "cio_approval"),
    ("Senior Leadership", "senior_review"),
    ("COR Review", "iss_review"),
    ("COR Confirmation", "iss_review"),
    ("COR Authorization", "ko_review"),
    ("COR + PM Justification", "iss_review"),
    ("COR Justification", "iss_review"),
    ("PM Approval", "iss_review"),
    ("CTO Approval", "cio_approval"),
    ("FM Funding Identification", "finance_review"),
    ("BM LOA Confirmation", "finance_review"),
    ("Supervisor", "iss_review"),
    ("Supervisor Approval", "iss_review"),
    ("GPC Purchase", "finance_review"),
    ("GPC Holder", "finance_review") ]

/-- `_step_to_status(step_name)`: `name_map.get(step_name, 'submitted')`. -/
def stepToStatus (stepName : String) : String :=
  (((nameMap.find? (fun p => p.1 == stepName)).map (fun p => p.2)).getD "submitted")

/-- A row of `ApprovalTemplateStep`. The class itself lives in
`app/models/approval.py` (not part of the provided sources); its columns are
modelled from the spec: step number, display name, required approver role,
SLA in days, enabled flag, optional conditional-rule expression
(`models/approval.py` is referenced by `workflow.py`, `admin.py` and
`seed.py`, which read and write exactly these columns). An absent or empty
(falsy) `condition_rule` is `none`. -/
structure TStep where
  step_number : Nat
  step_name : String
  approver_role : String
  sla_days : Nat
  is_enabled : Bool
  is_conditional : Bool
  condition_rule : Option RawRule

/-- A row of `ApprovalTemplate` with its step rows (`steps` in database
insertion order, before any `ORDER BY`). Modelled from the spec for the
same reason as `TStep`. -/
structure Template where
  name : String
  template_key : String
  pipeline_type : String
  steps : List TStep

/-- `ApprovalTemplateStep.query.filter_by(template_id=...).order_by(step_number)`:
the template's steps sorted by step number (stable sort, preserving
insertion order among equal step numbers). -/
def sortedSteps (t : Template) : List TStep :=
  List.insertionSort (fun a b => a.step_number ≤ b.step_number) t.steps

/-- A materialized `ApprovalStep` row for one request (columns from the
spec's data model, as read and written by `workflow.py`). -/
structure StepRow where
  step_number : Nat
  step_name : String
  approver_role : String
  status : String
  activated_at : Option Nat := none
  due_date : Option Nat := none
  acted_on_date : Option Nat := none
  action_by : Option String := none
  action_by_id : Option Nat := none
  comments : Option String := none
deriving DecidableEq

/-- The workflow-visible state of one acquisition request: its `status`
column and its `ApprovalStep` rows in insertion order (which `submit_request`
makes ascending in step number). -/
structure WorkflowState where
  reqStatus : String
  steps : List StepRow
deriving DecidableEq

/-- A notification emitted through the out-of-scope collaborators
`notify_users_by_role` / `notify_requestor`; only the call contract
(target and notification type) is modelled. -/
inductive Notice where
  | role (approverRole : String) (ntype : String)
  | requestor (ntype : String)
deriving DecidableEq

/-- `_get_sla_days(template, step_number)`: the template step's `sla_days`,
5 when the template is `None` or has no step with that number. -/
def getSlaDays (tmpl : Option Template) (n : Nat) : Nat :=
  match tmpl with
  | none => 5
  | some t =>
      match t.steps.find? (fun ts => ts.step_number == n) with
      | some ts => ts.sla_days
      | none => 5

/-- The `ApprovalStep` row created by `submit_request` for one template
step, before activation. -/
def mkRow (ts : TStep) (status : String) : StepRow :=
  { step_number := ts.step_number, step_name := ts.step_name,
    approver_role := ts.approver_role, status := status }

/-- The step-creation loop of `submit_request` (lines 88-112): one row per
template step; a conditional step with a truthy rule evaluating false is
created `skipped`, everything else `pending`. An exception raised by the
evaluator propagates (aborting the submit). -/
def materializeSteps (tsteps : List TStep) (attrs : String → Option PyVal) :
    Except String (List StepRow) :=
  match tsteps with
  | [] => .ok []
  | ts :: rest =>
      let this? : Except String StepRow :=
        if ts.is_conditional then
          match ts.condition_rule with
          | some r =>
              match evalStepCondition r attrs with
              | .error e => .error e
              | .ok false => .ok (mkRow ts "skipped")
              | .ok true => .ok (mkRow ts "pending")
          | none => .ok (mkRow ts "pending")
        else .ok (mkRow ts "pending")
      match this? with
      | .error e => .error e
      | .ok row =>
          match materializeSteps rest attrs with
          | .error e => .error e
          | .ok rows => .ok (row :: rows)

/-- Step activation (shared by `submit_request` lines 118-121 and
`process_approval` lines 204-208): status `active`, activation timestamp,
`due_date = now + sla` days. -/
def activateRow (r : StepRow) (now sla : Nat) : StepRow :=
  { r with
    status := "active"
    activated_at := some now
    due_date := some (now + sla) }

/-- The completion stamp `process_approval` writes on the acted-on step
(status plus actor, id, comments, timestamp). -/
def actedRow (r : StepRow) (newStatus actorName : String) (actorId : Option Nat)
    (comments : Option String) (now : Nat) : StepRow :=
  { r with
    status := newStatus
    acted_on_date := some now
    action_by := some actorName
    action_by_id := actorId
    comments := comments }

/-- The activation loop of `submit_request` (lines 117-123): the first
`pending` row becomes `active` with activation time and due date
(`now + SLA days`); returns the updated rows and the activated row. -/
def activateFirst (rows : List StepRow) (tmpl : Template) (now : Nat) :
    List StepRow × Option StepRow :=
  match rows with
  | [] => ([], none)
  | r :: rest =>
      if r.status == "pending" then
        let r' := activateRow r now (getSlaDays (some tmpl) r.step_number)
        (r' :: rest, some r')
      else
        let (rest', a) := activateFirst rest tmpl now
        (r :: rest', a)

/-- Result of a successful `submit_request`. -/
structure SubmitRes where
  state : WorkflowState
  notices : List Notice
  stepsCreated : Nat
  currentStatus : String
deriving DecidableEq

/-- Outcome of `submit_request`: a reported business error (an `{'error':..}`
dict, no state change), an uncaught exception (transaction rolled back, no
state change), or success. -/
inductive SubmitOutcome where
  | err (msg : String)
  | exn (msg : String)
  | ok (r : SubmitRes)
deriving DecidableEq

/-- `submit_request` from `workflow.py`, for one request. `tmpl?` is the
result of `select_template` (`none` when no template matches). Existing
steps are discarded, steps are rebuilt from the template in step-number
order, the first pending step is activated, the request status becomes the
activated step's mapped status (line 122) and a lingering `draft` becomes
`submitted` (line 125). -/
def submitRequest (st : WorkflowState) (tmpl? : Option Template)
    (attrs : String → Option PyVal) (now : Nat) : SubmitOutcome :=
  if st.reqStatus != "draft" && st.reqStatus != "returned" then
    .err ("Cannot submit request in status: " ++ st.reqStatus)
  else
    match tmpl? with
    | none => .err "No approval template found for pipeline"
    | some tmpl =>
        match materializeSteps (sortedSteps tmpl) attrs with
        | .error e => .exn e
        | .ok rows =>
            let (rows', act?) := activateFirst rows tmpl now
            let status1 :=
              match act? with
              | some a => stepToStatus a.step_name
              | none => st.reqStatus
            let status2 := if status1 != "draft" then status1 else "submitted"
            let notices :=
              match act? with
              | some a => [Notice.role a.approver_role "step_activated"]
              | none => []
            .ok { state := { reqStatus := status2, steps := rows' },
                  notices := notices,
                  stepsCreated := rows'.length,
                  currentStatus := status2 }

/-- `_find_next_step(request_id, current_step_number)`: the first row, in
`ORDER BY step_number` order, with `step_number > current` and status
`pending` — i.e. the lowest-numbered such row, the earliest-inserted one
among equal numbers. Returns its position in the stored list and the row. -/
def nextStepIdx (rows : List StepRow) (cur : Nat) : Option (Nat × StepRow) :=
  match rows with
  | [] => none
  | r :: rest =>
      let tail := (nextStepIdx rest cur).map (fun p => (p.1 + 1, p.2))
      if cur < r.step_number && r.status == "pending" then
        match tail with
        | some (j, s) => if s.step_number < r.step_number then some (j, s) else some (0, r)
        | none => some (0, r)
      else tail

/-- Result of a successful `process_approval`. -/
structure ProcRes where
  state : WorkflowState
  notices : List Notice
  requestStatus : String
  stepName : String
deriving DecidableEq

/-- Outcome of `process_approval`: a reported error dict (no state change)
or success. -/
inductive ProcOutcome where
  | err (msg : String)
  | ok (r : ProcRes)
deriving DecidableEq

/-- `process_approval(step_id, action, actor_name, actor_id, comments)` from
`workflow.py`, for one request whose step rows are `st.steps`; `idx` is the
position of the row with id `step_id`. `tmpl?` is the template that
`select_template(request)` finds when a next step must be activated
(`none` when no template matches the request's pipeline, giving SLA 5). -/
def processApproval (st : WorkflowState) (idx : Nat) (action : String)
    (actorName : String) (actorId : Option Nat) (comments : Option String)
    (tmpl? : Option Template) (now : Nat) : ProcOutcome :=
  match st.steps[idx]? with
  | none => .err "Approval step not found"
  | some step =>
      if step.status != "active" then
        .err ("Step is not active (current status: " ++ step.status ++ ")")
      else if action == "approve" then
        let step' := actedRow step "approved" actorName actorId comments now
        let steps1 := st.steps.set idx step'
        match nextStepIdx steps1 step.step_number with
        | some (j, nxt) =>
            let nxt' := activateRow nxt now (getSlaDays tmpl? nxt.step_number)
            let newStatus := stepToStatus nxt.step_name
            .ok { state := { reqStatus := newStatus, steps := steps1.set j nxt' },
                  notices := [Notice.role nxt.approver_role "step_activated"],
                  requestStatus := newStatus, stepName := step.step_name }
        | none =>
            .ok { state := { reqStatus := "approved", steps := steps1 },
                  notices := [Notice.requestor "request_fully_approved"],
                  requestStatus := "approved", stepName := step.step_name }
      else if action == "reject" then
        let step' := actedRow step "rejected" actorName actorId comments now
        .ok { state := { reqStatus := "cancelled", steps := st.steps.set idx step' },
              notices := [Notice.requestor "request_rejected"],
              requestStatus := "cancelled", stepName := step.step_name }
      else if action == "return" then
        let step' := actedRow step "returned" actorName actorId comments now
        .ok { state := { reqStatus := "returned", steps := st.steps.set idx step' },
              notices := [Notice.requestor "request_returned"],
              requestStatus := "returned", stepName := step.step_name }
      else .err ("Unknown action: " ++ action)

/-- One externally invokable workflow operation on a request. -/
inductive Op where
  | submit (tmpl? : Option Template) (now : Nat)
  | approval (idx : Nat) (action : String) (actorName : String)
      (actorId : Option Nat) (comments : Option String)
      (tmpl? : Option Template) (now : Nat)

/-- Run one operation: errors and exceptions leave the committed state
unchanged (the transaction is rolled back / never started). -/
def stepOp (attrs : String → Option PyVal) (st : WorkflowState) : Op → WorkflowState
  | .submit tmpl? now =>
      match submitRequest st tmpl? attrs now with
      | .ok r => r.state
      | _ => st
  | .approval idx action nm aid c tmpl? now =>
      match processApproval st idx action nm aid c tmpl? now with
      | .ok r => r.state
      | .err _ => st

/-- Run a sequence of operations. -/
def runOps (attrs : String → Option PyVal) (ops : List Op) (st : WorkflowState) :
    WorkflowState :=
  ops.foldl (stepOp attrs) st

/-- A freshly created request: status `draft`, no approval steps. -/
def initState : WorkflowState := { reqStatus := "draft", steps := [] }

/-- Python `round(q, 1)`: one decimal place (modelled over `ℚ`; the spec's
progress values are exact tenths away from ties). -/
def round1 (q : ℚ) : ℚ := (round (q * 10) : ℤ) / 10

/-- Result of `get_approval_status` (the JSON payload fields the spec
describes; the empty-steps early return reports zero progress). -/
structure StatusRes where
  steps : List StepRow
  current : Option StepRow
  completed : Nat
  total_steps : Nat
  progress : ℚ
deriving DecidableEq

/-- The counting loop of `get_approval_status` (lines 323-329): one pass
accumulating the last `active` step seen, the `approved` count and the
non-`skipped` count. -/
def statusFold (rows : List StepRow) : Option StepRow × Nat × Nat :=
  rows.foldl
    (fun acc s =>
      ( if s.status == "active" then some s else acc.1,
        acc.2.1 + (if s.status == "approved" then 1 else 0),
        acc.2.2 + (if s.status != "skipped" then 1 else 0) ))
    (none, 0, 0)

/-- `get_approval_status(request_id)` from `workflow.py`, given the
request's step rows (queried in `ORDER BY step_number` order). -/
def getApprovalStatus (rows : List StepRow) : StatusRes :=
  if rows.isEmpty then
    { steps := [], current := none, completed := 0, total_steps := 0, progress := 0 }
  else
    let sorted := List.insertionSort (fun a b => a.step_number ≤ b.step_number) rows
    let (cur, completed, nonSkipped) := statusFold sorted
    let progress : ℚ := if 0 < nonSkipped then (completed : ℚ) / nonSkipped * 100 else 0
    { steps := sorted, current := cur, completed := completed,
      total_steps := nonSkipped, progress := round1 progress }

/-- `str.startswith(p)` / the SQL `LIKE 'p%'` prefix test, computed on the
character list (kernel-reducible, unlike `String.startsWith`). -/
def strStartsWith (s p : String) : Bool :=
  s.toList.take p.toList.length == p.toList

/-- Python `str.split(sep)` for a one-character separator, on character
lists: `''.split('-') == ['']`, and `k` separators give `k+1` pieces. -/
def splitCharList (sep : Char) : List Char → List (List Char)
  | [] => [[]]
  | c :: rest =>
      let r := splitCharList sep rest
      if c == sep then [] :: r
      else
        match r with
        | h :: t => (c :: h) :: t
        | [] => [[c]]

/-- `request_number.split('-')`. -/
def splitDash (s : String) : List String :=
  (splitCharList (Char.ofNat 45) s.toList).map (fun cs => String.mk cs)

/-- One decimal digit of a character, if it is a digit. -/
def charDigit? (c : Char) : Option Nat :=
  let n := c.toNat
  if 48 ≤ n && n ≤ 57 then some (n - 48) else none

/-- Digit-string accumulator for `pyInt?`. -/
def parseDigitsAux : List Char → Nat → Option Nat
  | [], acc => some acc
  | c :: cs, acc =>
      match charDigit? c with
      | some d => parseDigitsAux cs (acc * 10 + d)
      | none => none

/-- Python `int(s)` for a segment produced by splitting on `-` (such a
segment holds no sign; a non-digit or empty segment raises `ValueError`,
here `none`). -/
def pyInt? (s : String) : Option Nat :=
  match s.toList with
  | [] => none
  | cs => parseDigitsAux cs 0

/-- An `AcquisitionRequest` row as seen by `_generate_request_number`:
primary key and request number. -/
structure ReqRow where
  id : Nat
  request_number : String
deriving DecidableEq

/-- `ORDER BY id DESC ... .first()`: the row with the largest id (ids are
the primary key, so distinct in any real table; the first maximal row is
kept on ties). -/
def lastByIdDesc (rows : List ReqRow) : Option ReqRow :=
  rows.foldl
    (fun best r =>
      match best with
      | none => some r
      | some b => if b.id < r.id then some r else best)
    none

/-- Python `'{:04d}'.format(n)` for a natural number: zero-padded to at
least four digits. -/
def pad4 (n : Nat) : String :=
  let s := toString n
  if s.length < 4 then String.mk (List.replicate (4 - s.length) '0') ++ s else s

/-- `_generate_request_number` from `api/requests.py`: filter rows whose
number starts with `ACQ-<year>-` (the SQL `LIKE` pattern), take the row
with the highest id, parse the segment after the last `-` as the sequence
(falling back to 1 when unparsable, the caught `ValueError`), add one, and
format `ACQ-<year>-<seq:04d>`. -/
def generateRequestNumber (table : List ReqRow) (year : String) : String :=
  let matching := table.filter
    (fun r => strStartsWith r.request_number ("ACQ-" ++ year ++ "-"))
  let seq : Nat :=
    match lastByIdDesc matching with
    | none => 1
    | some last =>
        match (splitDash last.request_number).getLast? with
        | some piece =>
            match pyInt? piece with
            | some n => n + 1
            | none => 1
        | none => 1
  "ACQ-" ++ year ++ "-" ++ pad4 seq

/-- A row of `AdvisoryTriggerRule` (`models/advisory_trigger.py` is not
among the provided sources; columns modelled from the spec's advisory
trigger description and the reads in `api/intake.py`: team name, free-text
trigger condition, feeds-into-gate text, blocking flag). -/
structure AdvisoryTriggerRule where
  team : String
  trigger_condition : Option String
  feeds_into_gate : Option String
  blocks_gate : Bool
deriving DecidableEq

/-- An `AdvisoryInput` row as created by `_trigger_advisories`: team key
(`none` when the rule's team name normalizes to Python `None`), status,
blocking gate. -/
structure AdvisoryInput where
  team : Option String
  status : String
  blocks_gate : String
deriving DecidableEq

/-- The request fields read or written by advisory triggering: derived
classification plus the denormalized per-team status columns. -/
structure AdvReq where
  derived_tier : Option String
  derived_acquisition_type : Option String
  scrm_status : Option String
  sbo_status : Option String
  cio_status : Option String
  section508_status : Option String
deriving DecidableEq

/-- One entry of `ADVISORY_CODE_MAP` from `api/intake.py`. -/
structure CodeInfo where
  team : String
  status_field : Option String
  default_gate : String
deriving DecidableEq

/-- `ADVISORY_CODE_MAP` from `api/intake.py`. -/
def advisoryCodeMap : List (String × CodeInfo) :=
  [ ("SCRM", { team := "scrm", status_field := some "scrm_status", default_gate := "iss" }),
    ("SBO", { team := "sbo", status_field := some "sbo_status", default_gate := "asr" }),
    ("CIO", { team := "cio", status_field := some "cio_status", default_gate := "iss" }),
    ("508", { team := "section508", status_field := some "section508_status", default_gate := "asr" }),
    ("FEDRAMP", { team := "fedramp", status_field := none, default_gate := "iss" }),
    ("FM", { team := "fm", status_field := none, default_gate := "finance" }) ]

/-- `_normalize_team(team_name)` from `api/intake.py`: keyword
normalization of an advisory team name to its DB key; falsy input gives
`None`. -/
def normalizeTeam (teamName : Option String) : Option String :=
  match teamName with
  | none => none
  | some name =>
      if name.isEmpty then none
      else
        let n := name.toLower
        if strContains n "scrm" then some "scrm"
        else if strContains n "small business" || strContains n "sbo" then some "sbo"
        else if strContains n "cio" || strContains n "it governance" then some "cio"
        else if strContains n "508" then some "section508"
        else if strContains n "fedramp" then some "fedramp"
        else if strContains n "business manager" || strContains n "fm" ||
                strContains n "financial" then some "fm"
        else some (n.replace " " "_")

/-- `_normalize_gate(gate_text)` from `api/intake.py`. -/
def normalizeGate (gateText : Option String) : Option String :=
  match gateText with
  | none => none
  | some t =>
      if t.isEmpty then none
      else
        let gl := t.toLower.trim
        if strContains gl "iss" then some "iss"
        else if strContains gl "asr" then some "asr"
        else if strContains gl "ko" then some "ko_review"
        else if strContains gl "finance" then some "finance"
        else if strContains gl "pm" then some "iss"
        else if strContains gl "cor" then some "ko_review"
        else some (gl.replace " " "_")

/-- Python `x or default` for an optional string: `None` and `''` are
falsy. -/
def orFalsyStr (v : Option String) (d : String) : String :=
  match v with
  | none => d
  | some s => if s.isEmpty then d else s

/-- `_find_trigger_rule(team)` from `api/intake.py`. `rules?` is the
`AdvisoryTriggerRule` table, `none` when querying it raises (table not yet
migrated) — the internal `try/except` then returns `None`. The `ilike`
match is case-insensitive substring containment. -/
def findTriggerRule (rules? : Option (List AdvisoryTriggerRule)) (team : String) :
    Option AdvisoryTriggerRule :=
  match rules? with
  | none => none
  | some rules =>
      let teamMap : List (String × String) :=
        [ ("scrm", "SCRM"), ("sbo", "Small Business Office"),
          ("cio", "CIO / IT Governance"), ("section508", "Section 508"),
          ("fm", "Business Manager (FM)"), ("fedramp", "FedRAMP PMO") ]
      let searchName := (((teamMap.find? (fun p => p.1 == team)).map (fun p => p.2)).getD team)
      rules.find? (fun r => strContains r.team.toLower searchName.toLower)

/-- `_evaluate_trigger_condition(rule, request_obj)` from `api/intake.py`:
keyword matching on the rule's free-text condition. -/
def evaluateTriggerCondition (rule : AdvisoryTriggerRule) (req : AdvReq) : Bool :=
  match rule.trigger_condition with
  | none => false
  | some c0 =>
      if c0.isEmpty then false
      else
        let cond := c0.toLower
        let team := normalizeTeam (some rule.team)
        if team == some "fm" && strContains cond "above micro" then
          match req.derived_tier with
          | none => false
          | some t => !t.isEmpty && t != "micro"
        else if strContains cond "clin execution" && strContains cond "odc" then
          req.derived_acquisition_type == some "clin_execution_odc"
        else if strContains cond "clin execution" && strContains cond "new product" then
          false
        else false

/-- `setattr(request_obj, status_field, 'requested')` for the denormalized
per-team status columns (`hasattr` holds exactly for the four modelled
columns). -/
def setStatusField (req : AdvReq) (f : Option String) : AdvReq :=
  match f with
  | some "scrm_status" => { req with scrm_status := some "requested" }
  | some "sbo_status" => { req with sbo_status := some "requested" }
  | some "cio_status" => { req with cio_status := some "requested" }
  | some "section508_status" => { req with section508_status := some "requested" }
  | _ => req

/-- Result of `_trigger_advisories`: the returned team list, the created
`AdvisoryInput` rows, the updated request. -/
structure TriggerRes where
  advisories : List (Option String)
  inputs : List AdvisoryInput
  request : AdvReq
deriving DecidableEq

/-- Accumulated state of the phase-1 loop (trigger codes from the matched
`IntakePath`), including the `triggered_teams` set carried into phase 2. -/
structure Phase1Res where
  advisories : List (Option String)
  inputs : List AdvisoryInput
  request : AdvReq
  triggered : List (Option String)
deriving DecidableEq

/-- The phase-1 loop body of `_trigger_advisories` (one iteration per
trigger code): unknown codes and already-triggered teams are skipped; each
fired team contributes one `requested` advisory whose gate comes from the
fuzzy rule lookup when available, else the code's default gate. -/
def phase1Go (rules? : Option (List AdvisoryTriggerRule)) (codes : List String)
    (req : AdvReq) (triggered : List (Option String)) : Phase1Res :=
  match codes with
  | [] => { advisories := [], inputs := [], request := req, triggered := triggered }
  | code :: rest =>
      match (advisoryCodeMap.find? (fun p => p.1 == code.toUpper)).map (fun p => p.2) with
      | none => phase1Go rules? rest req triggered
      | some info =>
          if triggered.contains (some info.team) then phase1Go rules? rest req triggered
          else
            let blocksGate :=
              match findTriggerRule rules? info.team with
              | some ru => orFalsyStr (normalizeGate ru.feeds_into_gate) info.default_gate
              | none => info.default_gate
            let adv : AdvisoryInput :=
              { team := some info.team, status := "requested", blocks_gate := blocksGate }
            let req' := setStatusField req info.status_field
            let tailRes := phase1Go rules? rest req' (some info.team :: triggered)
            { advisories := some info.team :: tailRes.advisories,
              inputs := adv :: tailRes.inputs,
              request := tailRes.request,
              triggered := tailRes.triggered }

/-- Phase 1 of `_trigger_advisories`: parse the comma-separated trigger
codes (skipped entirely for a falsy string or the literal `none`). -/
def phase1 (req : AdvReq) (s? : Option String)
    (rules? : Option (List AdvisoryTriggerRule)) : Phase1Res :=
  match s? with
  | none => { advisories := [], inputs := [], request := req, triggered := [] }
  | some s =>
      if s.isEmpty || s.trim.toLower == "none" then
        { advisories := [], inputs := [], request := req, triggered := [] }
      else
        let codes := ((s.splitOn ",").map (fun c => c.trim)).filter (fun c => c != "")
        phase1Go rules? codes req []

/-- The phase-2 loop of `_trigger_advisories` (condition-based triggers
from the `AdvisoryTriggerRule` table): teams already fired are skipped;
each firing rule contributes one `requested` advisory blocking its
normalized gate (default `asr`). -/
def phase2Go (req : AdvReq) (rules : List AdvisoryTriggerRule)
    (triggered : List (Option String)) :
    List (Option String) × List AdvisoryInput :=
  match rules with
  | [] => ([], [])
  | rule :: rest =>
      let team := normalizeTeam (some rule.team)
      if triggered.contains team then phase2Go req rest triggered
      else if evaluateTriggerCondition rule req then
        let blocksGate := orFalsyStr (normalizeGate rule.feeds_into_gate) "asr"
        let adv : AdvisoryInput :=
          { team := team, status := "requested", blocks_gate := blocksGate }
        let tailRes := phase2Go req rest (team :: triggered)
        (team :: tailRes.1, adv :: tailRes.2)
      else phase2Go req rest triggered

/-- `_trigger_advisories(request_obj, advisory_triggers_str)` from
`api/intake.py`. `rules?` is the `AdvisoryTriggerRule` table; `none` means
querying it raises, which the function's `try/except Exception: pass`
swallows, skipping phase 2 entirely (and phase 1's own rule lookups fall
back to default gates via `_find_trigger_rule`'s internal `try/except`).
The function is total: no outcome is an exception. -/
def triggerAdvisories (req : AdvReq) (s? : Option String)
    (rules? : Option (List AdvisoryTriggerRule)) : TriggerRes :=
  let p1 := phase1 req s? rules?
  match rules? with
  | none => { advisories := p1.advisories, inputs := p1.inputs, request := p1.request }
  | some rules =>
      let p2 := phase2Go p1.request rules p1.triggered
      { advisories := p1.advisories ++ p2.1,
        inputs := p1.inputs ++ p2.2,
        request := p1.request }

/-- The display names `_step_to_status` maps (the keys of `name_map`). -/
def mappedStepNames : List String := nameMap.map Prod.fst

/-- C7: `_step_to_status` realizes exactly the fixed step-name → request-status
mapping of spec section 6 (nine names to `iss_review`, two to `asr_review`,
six to `finance_review`, six to `ko_review`, `Legal Review` to
`legal_review`, two to `cio_approval`, `Senior Leadership` to
`senior_review`), and every unmapped name yields `submitted`. -/
theorem step_to_status_mapping :
    (stepToStatus "ISS" = "iss_review" ∧
     stepToStatus "ISS Review" = "iss_review" ∧
     stepToStatus "COR Review" = "iss_review" ∧
     stepToStatus "COR Confirmation" = "iss_review" ∧
     stepToStatus "COR + PM Justification" = "iss_review" ∧
     stepToStatus "COR Justification" = "iss_review" ∧
     stepToStatus "PM Approval" = "iss_review" ∧
     stepToStatus "Supervisor" = "iss_review" ∧
     stepToStatus "Supervisor Approval" = "iss_review" ∧
     stepToStatus "ASR" = "asr_review" ∧
     stepToStatus "ASR Review" = "asr_review" ∧
     stepToStatus "Finance" = "finance_review" ∧
     stepToStatus "Finance Review" = "finance_review" ∧
     stepToStatus "FM Funding Identification" = "finance_review" ∧
     stepToStatus "BM LOA Confirmation" = "finance_review" ∧
     stepToStatus "GPC Purchase" = "finance_review" ∧
     stepToStatus "GPC Holder" = "finance_review" ∧
     stepToStatus "KO Review" = "ko_review" ∧
     stepToStatus "KO Action" = "ko_review" ∧
     stepToStatus "KO Execution" = "ko_review" ∧
     stepToStatus "KO Determination" = "ko_review" ∧
     stepToStatus "KO Contract Mod" = "ko_review" ∧
     stepToStatus "COR Authorization" = "ko_review" ∧
     stepToStatus "Legal Review" = "legal_review" ∧
     stepToStatus "CIO Approval" = "cio_approval" ∧
     stepToStatus "CTO Approval" = "cio_approval" ∧
     stepToStatus "Senior Leadership" = "senior_review") ∧
    (∀ s : String, s ∉ mappedStepNames → stepToStatus s = "submitted") := by
  constructor
  · decide
  · intro s hs
    have h : nameMap.find? (fun p => p.1 == s) = none := by
      apply List.find?_eq_none.mpr
      intro p hp hbeq
      apply hs
      have hps : p.1 = s := by simpa using hbeq
      rw [← hps]
      exact List.mem_map_of_mem Prod.fst hp
    simp [stepToStatus, h]

/-- Witness for the unmapped-name branch of `step_to_status_mapping`. -/
theorem step_to_status_mapping_witness :
    "Bogus Step" ∉ mappedStepNames ∧ stepToStatus "Bogus Step" = "submitted" :=
  ⟨by decide, step_to_status_mapping.2 "Bogus Step" (by decide)⟩

/-- The counting loop accumulates exactly the `approved` count and the
non-`skipped` count, whatever the initial accumulator. -/
theorem statusFold_counts (rows : List StepRow) (init : Option StepRow × Nat × Nat) :
    (rows.foldl
      (fun acc s =>
        ( if s.status == "active" then some s else acc.1,
          acc.2.1 + (if s.status == "approved" then 1 else 0),
          acc.2.2 + (if s.status != "skipped" then 1 else 0) ))
      init).2 =
    (init.2.1 + rows.countP (fun s => s.status == "approved"),
     init.2.2 + rows.countP (fun s => s.status != "skipped")) := by
  induction rows generalizing init with
  | nil => simp
  | cons r rest ih =>
      simp only [List.foldl_cons, List.countP_cons, ih, Prod.mk.injEq]
      constructor <;> split <;> omega

/-- The row list `[approved, approved, skipped, active]` from the spec's
progress example. -/
def progressExampleRows : List StepRow :=
  [ { step_number := 1, step_name := "ISS", approver_role := "branch_chief",
      status := "approved" },
    { step_number := 2, step_name := "ASR", approver_role := "branch_chief",
      status := "approved" },
    { step_number := 3, step_name := "Finance", approver_role := "budget",
      status := "skipped" },
    { step_number := 4, step_name := "KO Review", approver_role := "ko",
      status := "active" } ]

/-- The progress field of `get_approval_status` equals the approved count
over the non-skipped count times 100, rounded, with 0 for an empty
denominator. -/
theorem approval_progress_formula_aux :
    ∀ rows : List StepRow,
      (getApprovalStatus rows).progress =
        (if rows.countP (fun s => s.status != "skipped") = 0 then 0
         else round1 ((rows.countP (fun s => s.status == "approved") : ℚ) /
                      (rows.countP (fun s => s.status != "skipped") : ℚ) * 100)) := by
  intro rows
  unfold getApprovalStatus
  by_cases hrows : rows.isEmpty
  · have : rows = [] := List.isEmpty_iff.mp hrows
    subst this
    simp
  · simp only [hrows, if_false, Bool.false_eq_true]
    have hperm : (List.insertionSort (fun a b => a.step_number ≤ b.step_number) rows).Perm rows :=
      List.perm_insertionSort _ _
    have happr : (List.insertionSort (fun a b => a.step_number ≤ b.step_number) rows).countP
        (fun s => s.status == "approved") = rows.countP (fun s => s.status == "approved") :=
      hperm.countP_eq _
    have hnsk : (List.insertionSort (fun a b => a.step_number ≤ b.step_number) rows).countP
        (fun s => s.status != "skipped") = rows.countP (fun s => s.status != "skipped") :=
      hperm.countP_eq _
    have hfold := statusFold_counts
      (List.insertionSort (fun a b => a.step_number ≤ b.step_number) rows)
      (none, 0, 0)
    simp only [statusFold, hfold, Nat.zero_add, happr, hnsk]
    by_cases hz : rows.countP (fun s => s.status != "skipped") = 0
    · simp [hz, round1]
    · have : 0 < rows.countP (fun s => s.status != "skipped") := Nat.pos_of_ne_zero hz
      simp [hz, this]

/-- C8: `get_approval_status` reports progress
`approved count / non-skipped count * 100` rounded to one decimal, `0`
when no non-skipped step exists, and `66.7` for the statuses
`[approved, approved, skipped, active]`. -/
theorem approval_progress_formula :
    (∀ rows : List StepRow,
      (getApprovalStatus rows).progress =
        (if rows.countP (fun s => s.status != "skipped") = 0 then 0
         else round1 ((rows.countP (fun s => s.status == "approved") : ℚ) /
                      (rows.countP (fun s => s.status != "skipped") : ℚ) * 100))) ∧
    (getApprovalStatus progressExampleRows).progress = 667 / 10 := by
  refine ⟨approval_progress_formula_aux, ?_⟩
  have hc1 : progressExampleRows.countP (fun s => s.status == "approved") = 2 := by decide
  have hc2 : progressExampleRows.countP (fun s => s.status != "skipped") = 3 := by decide
  have h := approval_progress_formula_aux progressExampleRows
  rw [hc1, hc2] at h
  norm_num at h
  rw [h, round1, round_eq]
  norm_num

/-- C5: submitting from a status other than `draft`/`returned`, and acting
on a step that is not `active` (in particular a second approval of an
already-approved step), each return a reported error and leave the
request's state unchanged. -/
theorem invalid_transition_no_mutation :
    ∀ (st : WorkflowState) (tmpl? : Option Template) (attrs : String → Option PyVal)
      (now idx : Nat) (step : StepRow) (action actorName : String)
      (actorId : Option Nat) (comments : Option String),
      (st.reqStatus ≠ "draft" → st.reqStatus ≠ "returned" →
        (∃ m, submitRequest st tmpl? attrs now = SubmitOutcome.err m) ∧
        stepOp attrs st (Op.submit tmpl? now) = st) ∧
      (st.steps[idx]? = some step → step.status ≠ "active" →
        (∃ m, processApproval st idx action actorName actorId comments tmpl? now =
              ProcOutcome.err m) ∧
        stepOp attrs st (Op.approval idx action actorName actorId comments tmpl? now) = st) := by
  intro st tmpl? attrs now idx step action actorName actorId comments
  constructor
  · intro h1 h2
    have hcond : (st.reqStatus != "draft" && st.reqStatus != "returned") = true := by
      simp only [Bool.and_eq_true, bne_iff_ne]
      exact ⟨h1, h2⟩
    have hsub : submitRequest st tmpl? attrs now =
        SubmitOutcome.err ("Cannot submit request in status: " ++ st.reqStatus) := by
      unfold submitRequest
      rw [if_pos hcond]
    exact ⟨⟨_, hsub⟩, by simp [stepOp, hsub]⟩
  · intro hget hst
    have hcond : (step.status != "active") = true := by
      simp only [bne_iff_ne]
      exact hst
    have hproc : processApproval st idx action actorName actorId comments tmpl? now =
        ProcOutcome.err ("Step is not active (current status: " ++ step.status ++ ")") := by
      simp only [processApproval, hget]
      rw [if_pos hcond]
    exact ⟨⟨_, hproc⟩, by simp [stepOp, hproc]⟩

/-- The already-approved step of the witness scenario. -/
def c5Step : StepRow :=
  { step_number := 1, step_name := "KO Review", approver_role := "ko",
    status := "approved" }

/-- A request mid-workflow whose only step has already been approved. -/
def c5State : WorkflowState := { reqStatus := "approved", steps := [c5Step] }

/-- Witness for `invalid_transition_no_mutation`: a submit from status
`approved` and a second approval of an already-approved step both error
without mutating. -/
theorem invalid_transition_no_mutation_witness :
    ((∃ m, submitRequest c5State none (fun _ => none) 0 = SubmitOutcome.err m) ∧
     stepOp (fun _ => none) c5State (Op.submit none 0) = c5State) ∧
    ((∃ m, processApproval c5State 0 "approve" "KO Smith" none none none 0 =
           ProcOutcome.err m) ∧
     stepOp (fun _ => none) c5State (Op.approval 0 "approve" "KO Smith" none none none 0) =
       c5State) := by
  have h := invalid_transition_no_mutation c5State none (fun _ => none) 0 0 c5Step
    "approve" "KO Smith" none none
  exact ⟨h.1 (by decide) (by decide), h.2 (by decide) (by decide)⟩

/-- The sequence component encoded in a request number: the digits after
the last `-` (as `_generate_request_number` parses it). -/
def seqOfNumber (s : String) : Option Nat :=
  ((splitDash s).getLast?).bind pyInt?

/-- The `ORDER BY id DESC ... .first()` fold yields an element whose id
bounds every id in the list, whatever row is already accumulated. -/
theorem lastByIdDesc_fold_spec (rows : List ReqRow) (acc : ReqRow) :
    ∃ m, rows.foldl
        (fun best r =>
          match best with
          | none => some r
          | some b => if b.id < r.id then some r else best)
        (some acc) = some m ∧
      (m = acc ∨ m ∈ rows) ∧ acc.id ≤ m.id ∧ ∀ r ∈ rows, r.id ≤ m.id := by
  induction rows generalizing acc with
  | nil => exact ⟨acc, rfl, Or.inl rfl, Nat.le_refl _, by simp⟩
  | cons r rest ih =>
      by_cases h : acc.id < r.id
      · obtain ⟨m, hm, hmem, hle, hall⟩ := ih r
        refine ⟨m, ?_, ?_, ?_, ?_⟩
        · simpa [h] using hm
        · rcases hmem with h1 | h1
          · exact Or.inr (by simp [h1])
          · exact Or.inr (List.mem_cons_of_mem _ h1)
        · exact Nat.le_trans (Nat.le_of_lt h) hle
        · intro x hx
          rcases List.mem_cons.mp hx with h1 | h1
          · exact h1 ▸ hle
          · exact hall x h1
      · obtain ⟨m, hm, hmem, hle, hall⟩ := ih acc
        refine ⟨m, ?_, ?_, hle, ?_⟩
        · simpa [h] using hm
        · rcases hmem with h1 | h1
          · exact Or.inl h1
          · exact Or.inr (List.mem_cons_of_mem _ h1)
        · intro x hx
          rcases List.mem_cons.mp hx with h1 | h1
          · exact h1 ▸ Nat.le_trans (Nat.le_of_not_lt h) hle
          · exact hall x h1

/-- `lastByIdDesc` returns the strictly-highest-id element when there is
one. -/
theorem lastByIdDesc_eq_max (rows : List ReqRow) (last : ReqRow)
    (hmem : last ∈ rows) (hmax : ∀ r ∈ rows, r ≠ last → r.id < last.id) :
    lastByIdDesc rows = some last := by
  cases rows with
  | nil => cases hmem
  | cons r rest =>
      have : lastByIdDesc (r :: rest) = rest.foldl
          (fun best r =>
            match best with
            | none => some r
            | some b => if b.id < r.id then some r else best)
          (some r) := rfl
      obtain ⟨m, hm, hmemm, hle, hall⟩ := lastByIdDesc_fold_spec rest r
      rw [this, hm]
      have hmrows : m ∈ r :: rest := by
        rcases hmemm with h1 | h1
        · simp [h1]
        · exact List.mem_cons_of_mem _ h1
      by_cases hms : m = last
      · rw [hms]
      · exfalso
        have hlt : m.id < last.id := hmax m hmrows hms
        have hge : last.id ≤ m.id := by
          rcases List.mem_cons.mp hmem with h1 | h1
          · exact h1 ▸ hle
          · exact hall _ h1
        omega

/-- C6 (amended): the generated number has format `ACQ-YYYY-NNNN` with a
zero-padded sequence; when the current year has no request the sequence is
`0001`; otherwise it is one plus the sequence parsed from the
most-recently-inserted (highest-id) request of the year — not the maximum
existing sequence. When rows were inserted in sequence order the two
coincide: existing `ACQ-2026-0001` (id 1) and `ACQ-2026-0009` (id 2) yield
`ACQ-2026-0010`, and a new year restarts at `ACQ-2027-0001`. -/
theorem generate_request_number_amended :
    (∀ (table : List ReqRow) (year : String),
       (∀ r ∈ table, ¬ strStartsWith r.request_number ("ACQ-" ++ year ++ "-")) →
       generateRequestNumber table year = "ACQ-" ++ year ++ "-0001") ∧
    (∀ (table : List ReqRow) (year : String) (last : ReqRow),
       last ∈ table → strStartsWith last.request_number ("ACQ-" ++ year ++ "-") →
       (∀ r ∈ table, strStartsWith r.request_number ("ACQ-" ++ year ++ "-") →
          r ≠ last → r.id < last.id) →
       generateRequestNumber table year =
         "ACQ-" ++ year ++ "-" ++ pad4 ((seqOfNumber last.request_number).getD 0 + 1)) ∧
    generateRequestNumber
      [{ id := 1, request_number := "ACQ-2026-0001" },
       { id := 2, request_number := "ACQ-2026-0009" }] "2026" = "ACQ-2026-0010" ∧
    generateRequestNumber
      [{ id := 1, request_number := "ACQ-2026-0001" },
       { id := 2, request_number := "ACQ-2026-0009" }] "2027" = "ACQ-2027-0001" := by
  refine ⟨?_, ?_, by rfl, by rfl⟩
  · intro table year hnone
    have hfil : table.filter
        (fun r => strStartsWith r.request_number ("ACQ-" ++ year ++ "-")) = [] := by
      apply List.filter_eq_nil_iff.mpr
      intro r hr
      simpa using hnone r hr
    unfold generateRequestNumber
    rw [hfil]
    show "ACQ-" ++ year ++ "-" ++ pad4 1 = "ACQ-" ++ year ++ "-0001"
    rw [String.append_assoc ("ACQ-" ++ year) "-" (pad4 1)]
    rw [show "-" ++ pad4 1 = "-0001" from by decide]
  · intro table year last hmem hpre hmax
    have hmemf : last ∈ table.filter
        (fun r => strStartsWith r.request_number ("ACQ-" ++ year ++ "-")) := by
      apply List.mem_filter.mpr
      exact ⟨hmem, hpre⟩
    have hmaxf : ∀ r ∈ table.filter
        (fun r => strStartsWith r.request_number ("ACQ-" ++ year ++ "-")),
        r ≠ last → r.id < last.id := by
      intro r hr hne
      have := List.mem_filter.mp hr
      exact hmax r this.1 (by simpa using this.2) hne
    have hlast := lastByIdDesc_eq_max _ last hmemf hmaxf
    unfold generateRequestNumber
    simp only [hlast]
    unfold seqOfNumber
    cases hgl : (splitDash last.request_number).getLast? with
    | none => simp [hgl]
    | some piece =>
        cases hnat : pyInt? piece with
        | none => simp [hgl, hnat, Option.bind]
        | some n => simp [hgl, hnat, Option.bind]

/-- Witness for `generate_request_number_amended`: the no-rows branch at an
empty table and the highest-id branch at a two-row table. -/
theorem generate_request_number_amended_witness :
    generateRequestNumber [] "2026" = "ACQ-2026-0001" ∧
    generateRequestNumber
      [{ id := 1, request_number := "ACQ-2026-0001" },
       { id := 2, request_number := "ACQ-2026-0009" }] "2026" =
      "ACQ-2026-" ++ pad4 ((seqOfNumber "ACQ-2026-0009").getD 0 + 1) :=
  ⟨generate_request_number_amended.1 [] "2026" (by decide),
   generate_request_number_amended.2.1
     [{ id := 1, request_number := "ACQ-2026-0001" },
      { id := 2, request_number := "ACQ-2026-0009" }] "2026"
     { id := 2, request_number := "ACQ-2026-0009" }
     (by decide) (by decide) (by decide)⟩

/-- C6 counterexample: when the highest-id row of the year does not carry
the year's maximum sequence, the generated number is neither
`max(existing sequence) + 1` nor unique — with existing `ACQ-2026-0002`
(id 1) and `ACQ-2026-0001` (id 2), the next number is `ACQ-2026-0002`,
a duplicate, not `ACQ-2026-0003`. -/
theorem generate_request_number_counterexample :
    generateRequestNumber
      [{ id := 1, request_number := "ACQ-2026-0002" },
       { id := 2, request_number := "ACQ-2026-0001" }] "2026" = "ACQ-2026-0002" ∧
    "ACQ-2026-0002" ∈
      ([{ id := 1, request_number := "ACQ-2026-0002" },
        { id := 2, request_number := "ACQ-2026-0001" }] : List ReqRow).map
        ReqRow.request_number ∧
    generateRequestNumber
      [{ id := 1, request_number := "ACQ-2026-0002" },
       { id := 2, request_number := "ACQ-2026-0001" }] "2026" ≠ "ACQ-2026-0003" := by
  refine ⟨by decide, by decide, by decide⟩

/-- Unfolding `==` on string-constructor JSON values. -/
theorem json_beq_str (a b : String) : (Json.str a == Json.str b) = (a == b) := rfl

/-- A single condition object of the documented shape: a JSON object whose
`field` is a string or falsy (or whose `operator` is falsy), and whose
`values` is a JSON array when the operator is `in`/`not_in`. -/
def safeSingle (j : Json) : Bool :=
  match j with
  | .obj kvs =>
      pyFalsy (jgetD kvs "field" .null) || pyFalsy (jgetD kvs "operator" .null) ||
      ((match jgetD kvs "field" .null with
        | .str _ => true
        | _ => false) &&
       (!(jgetD kvs "operator" .null == Json.str "in" ||
          jgetD kvs "operator" .null == Json.str "not_in") ||
        (match jgetD kvs "values" (.arr []) with
         | .arr _ => true
         | _ => false)))
  | _ => false

/-- A condition rule of the documented shape: unparsable text, or a JSON
object whose `allOf`/`anyOf` member (when the key is present) is an array
of well-shaped condition objects, or a single well-shaped condition
object. -/
def safeRule : RawRule → Bool
  | .malformed => true
  | .parsed j =>
      match j with
      | .obj kvs =>
          if kvs.any (fun p => p.1 == "allOf") then
            match jgetD kvs "allOf" .null with
            | .arr cs => cs.all safeSingle
            | _ => false
          else if kvs.any (fun p => p.1 == "anyOf") then
            match jgetD kvs "anyOf" .null with
            | .arr cs => cs.all safeSingle
            | _ => false
          else safeSingle j
      | _ => false

/-- A well-shaped single condition always evaluates without raising. -/
theorem evalSingle_total (j : Json) (attrs : String → Option PyVal)
    (h : safeSingle j = true) : ∃ b, evalSingle j attrs = .ok b := by
  cases j with
  | obj kvs =>
      by_cases hfo :
          (pyFalsy (jgetD kvs "field" .null) || pyFalsy (jgetD kvs "operator" .null)) = true
      · exact ⟨true, by simp only [evalSingle]; rw [if_pos hfo]⟩
      · simp only [safeSingle, Bool.or_assoc, Bool.or_eq_true] at h
        rcases h with h | h | h
        · exact absurd (by rw [h]; simp) hfo
        · exact absurd (by rw [h]; simp) hfo
        · rw [Bool.and_eq_true] at h
          obtain ⟨hstr, hop⟩ := h
          have hstr2 : ∃ f, jgetD kvs "field" .null = Json.str f := by
            cases hx : jgetD kvs "field" .null <;> rw [hx] at hstr
            case str f => exact ⟨f, rfl⟩
            all_goals cases hstr
          obtain ⟨f, hfld⟩ := hstr2
          rw [hfld] at hfo
          simp only [evalSingle, hfld]
          rw [if_neg hfo]
          by_cases hin : (jgetD kvs "operator" .null == Json.str "in") = true
          · rw [if_pos hin]
            have harr : (match jgetD kvs "values" (.arr []) with
                | Json.arr _ => true
                | _ => false) = true := by
              rw [Bool.or_eq_true] at hop
              rcases hop with hop | hop
              · rw [hin] at hop
                simp at hop
              · exact hop
            cases hv : jgetD kvs "values" (.arr []) <;>
              first
              | exact ⟨_, rfl⟩
              | (rw [hv] at harr; cases harr)
          · rw [if_neg hin]
            by_cases hnin : (jgetD kvs "operator" .null == Json.str "not_in") = true
            · rw [if_pos hnin]
              have harr : (match jgetD kvs "values" (.arr []) with
                  | Json.arr _ => true
                  | _ => false) = true := by
                rw [Bool.or_eq_true] at hop
                rcases hop with hop | hop
                · rw [hnin] at hop
                  simp at hop
                · exact hop
              cases hv : jgetD kvs "values" (.arr []) <;>
              first
              | exact ⟨_, rfl⟩
              | (rw [hv] at harr; cases harr)
            · rw [if_neg hnin]
              by_cases h1 : (jgetD kvs "operator" .null == Json.str "==") = true
              · rw [if_pos h1]; exact ⟨_, rfl⟩
              · rw [if_neg h1]
                by_cases h2 : (jgetD kvs "operator" .null == Json.str "!=") = true
                · rw [if_pos h2]; exact ⟨_, rfl⟩
                · rw [if_neg h2]
                  by_cases h3 : (jgetD kvs "operator" .null == Json.str "exists") = true
                  · rw [if_pos h3]; exact ⟨_, rfl⟩
                  · rw [if_neg h3]; exact ⟨_, rfl⟩
  | null => cases h
  | bool b => cases h
  | num n => cases h
  | str s2 => cases h
  | arr xs => cases h

/-- `all(...)` over well-shaped conditions never raises. -/
theorem allLazy_total (attrs : String → Option PyVal) (cs : List Json)
    (h : cs.all safeSingle = true) :
    ∃ b, allLazy (fun c => evalSingle c attrs) cs = .ok b := by
  induction cs with
  | nil => exact ⟨true, rfl⟩
  | cons c rest ih =>
      rw [List.all_cons, Bool.and_eq_true] at h
      obtain ⟨b, hb⟩ := evalSingle_total c attrs h.1
      obtain ⟨b2, hb2⟩ := ih h.2
      cases b with
      | false => exact ⟨false, by simp only [allLazy, hb]⟩
      | true => exact ⟨b2, by simp only [allLazy, hb, hb2]⟩

/-- `any(...)` over well-shaped conditions never raises. -/
theorem anyLazy_total (attrs : String → Option PyVal) (cs : List Json)
    (h : cs.all safeSingle = true) :
    ∃ b, anyLazy (fun c => evalSingle c attrs) cs = .ok b := by
  induction cs with
  | nil => exact ⟨false, rfl⟩
  | cons c rest ih =>
      rw [List.all_cons, Bool.and_eq_true] at h
      obtain ⟨b, hb⟩ := evalSingle_total c attrs h.1
      obtain ⟨b2, hb2⟩ := ih h.2
      cases b with
      | true => exact ⟨true, by simp only [anyLazy, hb]⟩
      | false => exact ⟨b2, by simp only [anyLazy, hb, hb2]⟩

/-- A present key makes `jgetD` return the found entry and `pySubscript`
succeed with the same value. -/
theorem pySubscript_of_any (kvs : List (String × Json)) (k : String)
    (h : kvs.any (fun p => p.1 == k) = true) :
    pySubscript (Json.obj kvs) k = .ok (jgetD kvs k .null) := by
  have : ∃ q, kvs.find? (fun p => p.1 == k) = some q := by
    rw [List.any_eq_true] at h
    obtain ⟨x, hx, hpx⟩ := h
    cases hf : kvs.find? (fun p => p.1 == k) with
    | some q => exact ⟨q, rfl⟩
    | none =>
        exact absurd hpx (by simpa using List.find?_eq_none.mp hf x hx)
  obtain ⟨q, hq⟩ := this
  simp [pySubscript, jget, jgetD, hq]

/-- A well-shaped rule always evaluates without raising. -/
theorem evalStepCondition_total (r : RawRule) (attrs : String → Option PyVal)
    (h : safeRule r = true) : ∃ b, evalStepCondition r attrs = .ok b := by
  cases r with
  | malformed => exact ⟨true, rfl⟩
  | parsed j =>
      cases j with
      | obj kvs =>
          simp only [safeRule] at h
          simp only [evalStepCondition, pyContainsKey]
          by_cases hall : kvs.any (fun p => p.1 == "allOf") = true
          · rw [if_pos hall] at h
            simp only [hall]
            rw [pySubscript_of_any kvs "allOf" hall]
            cases hv : jgetD kvs "allOf" .null <;> rw [hv] at h <;>
              first
              | (simp only [pyIter]; exact allLazy_total attrs _ h)
              | cases h
          · rw [if_neg hall] at h
            have hallf : kvs.any (fun p => p.1 == "allOf") = false :=
              Bool.not_eq_true _ ▸ eq_false_of_ne_true hall
            simp only [hallf]
            by_cases hany : kvs.any (fun p => p.1 == "anyOf") = true
            · rw [if_pos hany] at h
              simp only [hany]
              rw [pySubscript_of_any kvs "anyOf" hany]
              cases hv : jgetD kvs "anyOf" .null <;> rw [hv] at h <;>
                first
                | (simp only [pyIter]; exact anyLazy_total attrs _ h)
                | cases h
            · rw [if_neg hany] at h
              have hanyf : kvs.any (fun p => p.1 == "anyOf") = false :=
                Bool.not_eq_true _ ▸ eq_false_of_ne_true hany
              simp only [hanyf]
              exact evalSingle_total _ attrs h
      | null => cases h
      | bool b => cases h
      | num n => cases h
      | str s2 => cases h
      | arr xs => cases h

/-- C10 counterexample: predicate evaluation is not total — a rule that is
valid JSON but not an object (here the JSON text `[]`) raises an
uncaught `AttributeError` (only the `json.loads` call sits inside the
`try`), so a submit materializing such a conditional step aborts instead
of creating the step. -/
theorem condition_eval_raises_counterexample :
    evalStepCondition (RawRule.parsed (Json.arr [])) (fun _ => none) =
      Except.error "AttributeError: object has no attribute get" ∧
    materializeSteps
      [{ step_number := 1, step_name := "Legal Review", approver_role := "legal",
         sla_days := 5, is_enabled := true, is_conditional := true,
         condition_rule := some (RawRule.parsed (Json.arr [])) }] (fun _ => none) =
      Except.error "AttributeError: object has no attribute get" :=
  ⟨rfl, rfl⟩

/-- C10 (amended): for every request, predicate evaluation is total and
defaults to inclusion on rules of the documented shape — unparsable text,
or a JSON object whose `allOf`/`anyOf` member is an array of condition
objects whose `field` is a string or falsy and whose `values` (for
`in`/`not_in`) is an array: such evaluation never raises; an unparsable
rule, a condition with missing/falsy `field` or `operator`, and a string
operator outside `in`/`not_in`/`==`/`!=`/`exists` are all treated as
satisfied, so the step is created `pending`. Rules parsing to non-object
JSON raise (see the counterexample). -/
theorem condition_eval_default_include :
    ∀ (attrs : String → Option PyVal) (r : RawRule) (kvs : List (String × Json)),
      (safeRule r = true → ∃ b, evalStepCondition r attrs = .ok b) ∧
      evalStepCondition RawRule.malformed attrs = .ok true ∧
      ((pyFalsy (jgetD kvs "field" .null) || pyFalsy (jgetD kvs "operator" .null)) = true →
        evalSingle (Json.obj kvs) attrs = .ok true) ∧
      (∀ f o, jgetD kvs "field" .null = Json.str f →
        jgetD kvs "operator" .null = Json.str o →
        o ∉ (["in", "not_in", "==", "!=", "exists"] : List String) →
        evalSingle (Json.obj kvs) attrs = .ok true) ∧
      (∀ (ts : TStep) (ru : RawRule) (rest : List TStep),
        ts.is_conditional = true → ts.condition_rule = some ru →
        evalStepCondition ru attrs = .ok true →
        materializeSteps (ts :: rest) attrs =
          (match materializeSteps rest attrs with
           | .ok rows => .ok (mkRow ts "pending" :: rows)
           | .error e => .error e)) := by
  intro attrs r kvs
  refine ⟨evalStepCondition_total r attrs, rfl, ?_, ?_, ?_⟩
  · intro hfo
    simp only [evalSingle]
    rw [if_pos hfo]
  · intro f o hf ho hno
    by_cases hfo :
        (pyFalsy (jgetD kvs "field" .null) || pyFalsy (jgetD kvs "operator" .null)) = true
    · simp only [evalSingle]
      rw [if_pos hfo]
    · simp only [evalSingle, hf]
      rw [hf] at hfo
      rw [if_neg hfo]
      have hne : ∀ x : String, o ≠ x →
          (jgetD kvs "operator" .null == Json.str x) = false := by
        intro x hx
        rw [ho, json_beq_str]
        exact beq_eq_false_iff_ne.mpr hx
      rw [hne "in" (by intro hc; exact hno (by rw [hc]; simp))]
      rw [hne "not_in" (by intro hc; exact hno (by rw [hc]; simp))]
      rw [hne "==" (by intro hc; exact hno (by rw [hc]; simp))]
      rw [hne "!=" (by intro hc; exact hno (by rw [hc]; simp))]
      rw [hne "exists" (by intro hc; exact hno (by rw [hc]; simp))]
      rfl
  · intro ts ru rest hcond hrule heval
    simp only [materializeSteps, hcond, hrule, heval, if_true]
    cases materializeSteps rest attrs <;> rfl

/-- Witness for `condition_eval_default_include`: a rule object with a
string field and the unknown operator `contains` evaluates to inclusion,
and the step it guards comes out `pending`. -/
theorem condition_eval_default_include_witness :
    (safeRule (RawRule.parsed (Json.obj [("field", Json.str "priority")])) = true ∧
     ∃ b, evalStepCondition (RawRule.parsed (Json.obj [("field", Json.str "priority")]))
            (fun _ => none) = .ok b) ∧
    ((pyFalsy (jgetD [("operator", Json.str "in")] "field" .null) ||
      pyFalsy (jgetD [("operator", Json.str "in")] "operator" .null)) = true ∧
     evalSingle (Json.obj [("operator", Json.str "in")]) (fun _ => none) = .ok true) ∧
    (jgetD [("field", Json.str "priority"), ("operator", Json.str "contains")]
        "field" .null = Json.str "priority" ∧
     jgetD [("field", Json.str "priority"), ("operator", Json.str "contains")]
        "operator" .null = Json.str "contains" ∧
     "contains" ∉ (["in", "not_in", "==", "!=", "exists"] : List String) ∧
     evalSingle
       (Json.obj [("field", Json.str "priority"), ("operator", Json.str "contains")])
       (fun _ => none) = .ok true) := by
  refine ⟨⟨by decide, ?_⟩, ⟨by decide, ?_⟩, rfl, rfl, by decide, ?_⟩
  · exact (condition_eval_default_include (fun _ => none)
      (RawRule.parsed (Json.obj [("field", Json.str "priority")])) []).1 (by decide)
  · exact (condition_eval_default_include (fun _ => none) RawRule.malformed
      [("operator", Json.str "in")]).2.2.1 (by decide)
  · exact (condition_eval_default_include (fun _ => none) RawRule.malformed
      [("field", Json.str "priority"), ("operator", Json.str "contains")]).2.2.2.1
      "priority" "contains" rfl rfl (by decide)

/-- The status `submit_request` gives the materialized row of a template
step: `skipped` exactly for a conditional step with a truthy rule whose
predicate evaluates to false, else `pending`. -/
def expectedStatus (ts : TStep) (attrs : String → Option PyVal) : String :=
  if ts.is_conditional then
    match ts.condition_rule with
    | some r =>
        match evalStepCondition r attrs with
        | .ok false => "skipped"
        | _ => "pending"
    | none => "pending"
  else "pending"

/-- A successful materialization is exactly the pointwise translation of
the template steps. -/
theorem materializeSteps_ok_eq (tsteps : List TStep) (attrs : String → Option PyVal)
    (rows : List StepRow) (h : materializeSteps tsteps attrs = .ok rows) :
    rows = tsteps.map (fun ts => mkRow ts (expectedStatus ts attrs)) := by
  induction tsteps generalizing rows with
  | nil =>
      simp only [materializeSteps] at h
      cases h
      rfl
  | cons ts rest ih =>
      by_cases hts : ts.is_conditional = true
      · cases hr : ts.condition_rule with
        | some r =>
            cases he : evalStepCondition r attrs with
            | error e =>
                simp [materializeSteps, hts, hr, he] at h
            | ok b =>
                cases b with
                | false =>
                    simp only [materializeSteps, hts, hr, he, if_true] at h
                    cases hm : materializeSteps rest attrs with
                    | error e => rw [hm] at h; cases h
                    | ok rows2 =>
                        rw [hm] at h
                        cases h
                        simp only [List.map_cons]
                        refine congrArg₂ _ ?_ (ih rows2 hm)
                        simp [expectedStatus, hts, hr, he]
                | true =>
                    simp only [materializeSteps, hts, hr, he, if_true] at h
                    cases hm : materializeSteps rest attrs with
                    | error e => rw [hm] at h; cases h
                    | ok rows2 =>
                        rw [hm] at h
                        cases h
                        simp only [List.map_cons]
                        refine congrArg₂ _ ?_ (ih rows2 hm)
                        simp [expectedStatus, hts, hr, he]
        | none =>
            simp only [materializeSteps, hts, hr, if_true] at h
            cases hm : materializeSteps rest attrs with
            | error e => rw [hm] at h; cases h
            | ok rows2 =>
                rw [hm] at h
                cases h
                simp only [List.map_cons]
                refine congrArg₂ _ ?_ (ih rows2 hm)
                simp [expectedStatus, hts, hr]
      · have hts2 : ts.is_conditional = false := eq_false_of_ne_true hts
        simp only [materializeSteps, hts2, Bool.false_eq_true, if_false] at h
        cases hm : materializeSteps rest attrs with
        | error e => rw [hm] at h; cases h
        | ok rows2 =>
            rw [hm] at h
            cases h
            simp only [List.map_cons]
            refine congrArg₂ _ ?_ (ih rows2 hm)
            simp [expectedStatus, hts2]

/-- Every materialized row's status is `pending` or `skipped`. -/
theorem materializeSteps_status (tsteps : List TStep) (attrs : String → Option PyVal)
    (rows : List StepRow) (h : materializeSteps tsteps attrs = .ok rows) :
    ∀ row ∈ rows, row.status = "pending" ∨ row.status = "skipped" := by
  intro row hrow
  rw [materializeSteps_ok_eq tsteps attrs rows h] at hrow
  obtain ⟨ts, _, hts⟩ := List.mem_map.mp hrow
  rw [← hts]
  show expectedStatus ts attrs = "pending" ∨ expectedStatus ts attrs = "skipped"
  unfold expectedStatus
  by_cases hc : ts.is_conditional = true
  · rw [if_pos hc]
    cases hrule : ts.condition_rule with
    | none => exact Or.inl rfl
    | some r =>
        show (match evalStepCondition r attrs with
              | .ok false => "skipped"
              | _ => "pending") = "pending" ∨
             (match evalStepCondition r attrs with
              | .ok false => "skipped"
              | _ => "pending") = "skipped"
        cases he : evalStepCondition r attrs with
        | error e => exact Or.inl rfl
        | ok b => cases b <;> simp
  · rw [if_neg hc]
    exact Or.inl rfl

/-- Materialization preserves the step numbers of the template. -/
theorem materializeSteps_numbers (tsteps : List TStep) (attrs : String → Option PyVal)
    (rows : List StepRow) (h : materializeSteps tsteps attrs = .ok rows) :
    rows.map (fun r => r.step_number) = tsteps.map (fun ts => ts.step_number) := by
  rw [materializeSteps_ok_eq tsteps attrs rows h, List.map_map]
  rfl

/-- When no row is `pending`, the activation loop changes nothing and
activates nothing. -/
theorem activateFirst_no_pending (rows : List StepRow) (tmpl : Template) (now : Nat)
    (h : ∀ r ∈ rows, r.status ≠ "pending") :
    activateFirst rows tmpl now = (rows, none) := by
  induction rows with
  | nil => rfl
  | cons r rest ih =>
      have hr : (r.status == "pending") = false :=
        beq_eq_false_iff_ne.mpr (h r (List.mem_cons_self r rest))
      simp only [activateFirst, hr, Bool.false_eq_true, if_false]
      rw [ih (fun x hx => h x (List.mem_cons_of_mem r hx))]

/-- When some row is `pending`, the activation loop activates the first
such row in place and leaves everything else as it was. -/
theorem activateFirst_first_pending (rows : List StepRow) (tmpl : Template) (now : Nat)
    (a : StepRow) (h : (activateFirst rows tmpl now).2 = some a) :
    ∃ pre r post, rows = pre ++ r :: post ∧ (∀ s ∈ pre, s.status ≠ "pending") ∧
      r.status = "pending" ∧
      a = activateRow r now (getSlaDays (some tmpl) r.step_number) ∧
      (activateFirst rows tmpl now).1 = pre ++ a :: post := by
  induction rows with
  | nil => cases h
  | cons r rest ih =>
      by_cases hr : (r.status == "pending") = true
      · refine ⟨[], r, rest, rfl, by simp, by simpa using hr, ?_, ?_⟩
        · simp only [activateFirst, hr, if_true] at h
          cases h
          rfl
        · simp only [activateFirst, hr, if_true] at h ⊢
          cases h
          rfl
      · have hrf : (r.status == "pending") = false := eq_false_of_ne_true hr
        have h2 : activateFirst (r :: rest) tmpl now =
            (r :: (activateFirst rest tmpl now).1, (activateFirst rest tmpl now).2) := by
          simp only [activateFirst, hrf, Bool.false_eq_true, if_false]
        rw [h2] at h
        obtain ⟨pre, rr, post, hrows, hpre, hpend, ha, hfst⟩ := ih h
        refine ⟨r :: pre, rr, post, ?_, ?_, hpend, ha, ?_⟩
        · rw [hrows]
          rfl
        · intro s hs
          rcases List.mem_cons.mp hs with h1 | h1
          · rw [h1]
            exact beq_eq_false_iff_ne.mp hrf
          · exact hpre s h1
        · rw [h2, hfst]
          rfl

instance : IsTotal TStep (fun a b => a.step_number ≤ b.step_number) :=
  ⟨fun x y => Nat.le_total x.step_number y.step_number⟩

instance : IsTrans TStep (fun a b => a.step_number ≤ b.step_number) :=
  ⟨fun _ _ _ => Nat.le_trans⟩

instance : IsTotal StepRow (fun a b => a.step_number ≤ b.step_number) :=
  ⟨fun x y => Nat.le_total x.step_number y.step_number⟩

instance : IsTrans StepRow (fun a b => a.step_number ≤ b.step_number) :=
  ⟨fun _ _ _ => Nat.le_trans⟩

/-- C2 (amended): when every conditional predicate evaluates without
error, `submit_request`'s step creation materializes exactly one
`ApprovalStep` per template step of the selected template — enabled or not
(the `is_enabled` flag is never consulted) — in step-number order; a
conditional step with a truthy rule whose predicate is false is created
`skipped`, and every other step `pending`, before first-step activation. -/
theorem submit_materializes_steps :
    ∀ (tmpl : Template) (attrs : String → Option PyVal) (rows : List StepRow),
      materializeSteps (sortedSteps tmpl) attrs = .ok rows →
      rows = (sortedSteps tmpl).map (fun ts => mkRow ts (expectedStatus ts attrs)) ∧
      rows.length = tmpl.steps.length ∧
      (rows.map (fun r => r.step_number)).Sorted (fun a b => a ≤ b) ∧
      (∀ row ∈ rows, row.status = "pending" ∨ row.status = "skipped") := by
  intro tmpl attrs rows h
  refine ⟨materializeSteps_ok_eq _ _ _ h, ?_, ?_, materializeSteps_status _ _ _ h⟩
  · rw [materializeSteps_ok_eq _ _ _ h, List.length_map]
    exact (List.perm_insertionSort _ _).length_eq
  · rw [materializeSteps_numbers _ _ _ h]
    exact List.pairwise_map.mpr (List.sorted_insertionSort _ _)

/-- C2 witness template: its two steps are stored out of order, the
higher-numbered one disabled and guarded by an `exists` predicate that
fails against the witness request. -/
def c2Tmpl : Template :=
  { name := "Full Pipeline", template_key := "APPR-FULL", pipeline_type := "full",
    steps :=
      [ { step_number := 2, step_name := "Legal Review", approver_role := "legal",
          sla_days := 6, is_enabled := false, is_conditional := true,
          condition_rule := some (RawRule.parsed (Json.obj
            [("field", Json.str "need_by"), ("operator", Json.str "exists")])) },
        { step_number := 1, step_name := "ISS", approver_role := "branch_chief",
          sla_days := 5, is_enabled := true, is_conditional := false,
          condition_rule := none } ] }

/-- The rows `submit_request` materializes for `c2Tmpl` against a request
with all attributes `None`. -/
def c2MatRows : List StepRow :=
  [ { step_number := 1, step_name := "ISS", approver_role := "branch_chief",
      status := "pending" },
    { step_number := 2, step_name := "Legal Review", approver_role := "legal",
      status := "skipped" } ]

/-- Witness for `submit_materializes_steps` at `c2Tmpl`. -/
theorem submit_materializes_steps_witness :
    c2MatRows = (sortedSteps c2Tmpl).map
      (fun ts => mkRow ts (expectedStatus ts (fun _ => none))) ∧
    c2MatRows.length = c2Tmpl.steps.length ∧
    (c2MatRows.map (fun r => r.step_number)).Sorted (fun a b => a ≤ b) ∧
    (∀ row ∈ c2MatRows, row.status = "pending" ∨ row.status = "skipped") :=
  submit_materializes_steps c2Tmpl (fun _ => none) c2MatRows (by rfl)

/-- A one-step template whose only step is disabled. -/
def c2DisabledTmpl : Template :=
  { name := "KO-Only Pipeline", template_key := "APPR-KO-ONLY", pipeline_type := "ko_only",
    steps :=
      [ { step_number := 1, step_name := "KO Action", approver_role := "ko",
          sla_days := 5, is_enabled := false, is_conditional := false,
          condition_rule := none } ] }

/-- A one-step template whose conditional rule is valid JSON but not an
object. -/
def c2BadRuleTmpl : Template :=
  { name := "Full Pipeline", template_key := "APPR-FULL", pipeline_type := "full",
    steps :=
      [ { step_number := 1, step_name := "ISS", approver_role := "branch_chief",
          sla_days := 5, is_enabled := true, is_conditional := true,
          condition_rule := some (RawRule.parsed (Json.arr [])) } ] }

/-- C2 counterexample: `submit_request` materializes (and even activates) a
step whose template step is disabled — `is_enabled` is never consulted —
so the claimed one-row-per-enabled-step count fails; and a conditional
step whose rule parses to non-object JSON aborts the submit with an
exception instead of being materialized. -/
theorem submit_enabled_counterexample :
    (∃ r, submitRequest initState (some c2DisabledTmpl) (fun _ => none) 0 =
        SubmitOutcome.ok r ∧ r.stepsCreated = 1) ∧
    (c2DisabledTmpl.steps.filter (fun ts => ts.is_enabled)).length = 0 ∧
    (∃ e, submitRequest initState (some c2BadRuleTmpl) (fun _ => none) 0 =
        SubmitOutcome.exn e) := by
  exact ⟨⟨_, rfl, rfl⟩, by decide, ⟨_, rfl⟩⟩

/-- C3 (amended): submitting a submittable request whose materialized steps
are all `skipped` succeeds with no active step; the request status becomes
`submitted` when submitted from `draft` but stays `returned` when
submitted from `returned` (line 125 only replaces a lingering `draft`). -/
theorem submit_all_skipped :
    ∀ (st : WorkflowState) (tmpl : Template) (attrs : String → Option PyVal)
      (now : Nat) (rows : List StepRow),
      (st.reqStatus = "draft" ∨ st.reqStatus = "returned") →
      materializeSteps (sortedSteps tmpl) attrs = .ok rows →
      (∀ row ∈ rows, row.status = "skipped") →
      ∃ r, submitRequest st (some tmpl) attrs now = SubmitOutcome.ok r ∧
        r.state.steps = rows ∧
        (∀ row ∈ r.state.steps, row.status ≠ "active") ∧
        r.state.reqStatus = (if st.reqStatus = "draft" then "submitted" else st.reqStatus) := by
  intro st tmpl attrs now rows hst hmat hskip
  have hguard : (st.reqStatus != "draft" && st.reqStatus != "returned") = false := by
    rcases hst with h | h <;> simp [h]
  have hnopend : ∀ row ∈ rows, row.status ≠ "pending" := by
    intro row hr
    rw [hskip row hr]
    decide
  have hact := activateFirst_no_pending rows tmpl now hnopend
  unfold submitRequest
  simp only [hguard, Bool.false_eq_true, if_false, hmat, hact]
  refine ⟨_, rfl, rfl, ?_, ?_⟩
  · intro row hr
    rw [hskip row hr]
    decide
  · by_cases hd : st.reqStatus = "draft" <;> simp [hd]

/-- A one-step template whose only (conditional) step fails its `exists`
predicate against a request with all attributes `None`, so every
materialized step is `skipped`. -/
def c3Tmpl : Template :=
  { name := "Full Pipeline", template_key := "APPR-FULL", pipeline_type := "full",
    steps :=
      [ { step_number := 1, step_name := "Legal Review", approver_role := "legal",
          sla_days := 6, is_enabled := true, is_conditional := true,
          condition_rule := some (RawRule.parsed (Json.obj
            [("field", Json.str "need_by"), ("operator", Json.str "exists")])) } ] }

/-- Witness for `submit_all_skipped`: a draft request against a template
whose single conditional step fails its predicate. -/
theorem submit_all_skipped_witness :
    ∃ r, submitRequest initState (some c3Tmpl) (fun _ => none) 3 =
        SubmitOutcome.ok r ∧
      r.state.steps = [{ step_number := 1, step_name := "Legal Review",
                         approver_role := "legal", status := "skipped" }] ∧
      (∀ row ∈ r.state.steps, row.status ≠ "active") ∧
      r.state.reqStatus = (if initState.reqStatus = "draft" then "submitted"
                           else initState.reqStatus) :=
  submit_all_skipped initState c3Tmpl (fun _ => none) 3
    [{ step_number := 1, step_name := "Legal Review", approver_role := "legal",
       status := "skipped" }]
    (Or.inl rfl) (by rfl) (by decide)

/-- C3 counterexample: the same all-skipped submit performed from status
`returned` succeeds but leaves the request in status `returned`, not the
claimed `submitted`. -/
theorem submit_returned_counterexample :
    ∃ r, submitRequest { reqStatus := "returned", steps := [] } (some c3Tmpl)
        (fun _ => none) 7 = SubmitOutcome.ok r ∧
      (∀ row ∈ r.state.steps, row.status = "skipped") ∧
      r.state.reqStatus = "returned" ∧
      r.state.reqStatus ≠ "submitted" := by
  exact ⟨_, rfl, by decide, rfl, by decide⟩

/-- The phase-1 trigger loop fires the same teams, updates the request the
same way, and carries the same triggered set whether or not the
`AdvisoryTriggerRule` table can be queried — only the advisories' gate
annotations depend on it. -/
theorem phase1Go_rules_indep (codes : List String) (req : AdvReq)
    (triggered : List (Option String)) (rules : List AdvisoryTriggerRule) :
    (phase1Go (some rules) codes req triggered).advisories =
      (phase1Go none codes req triggered).advisories ∧
    (phase1Go (some rules) codes req triggered).inputs.map (fun a => a.team) =
      (phase1Go none codes req triggered).inputs.map (fun a => a.team) ∧
    (phase1Go (some rules) codes req triggered).request =
      (phase1Go none codes req triggered).request ∧
    (phase1Go (some rules) codes req triggered).triggered =
      (phase1Go none codes req triggered).triggered := by
  induction codes generalizing req triggered with
  | nil => exact ⟨rfl, rfl, rfl, rfl⟩
  | cons code rest ih =>
      simp only [phase1Go]
      cases hinfo : (advisoryCodeMap.find? (fun p => p.1 == code.toUpper)).map
          (fun p => p.2) with
      | none => exact ih req triggered
      | some info =>
          by_cases htr : triggered.contains (some info.team) = true
          · simp only [htr, if_true]
            exact ih req triggered
          · have htrf : triggered.contains (some info.team) = false :=
              eq_false_of_ne_true htr
            simp only [htrf, Bool.false_eq_true, if_false]
            obtain ⟨h1, h2, h3, h4⟩ :=
              ih (setStatusField req info.status_field) (some info.team :: triggered)
            refine ⟨by simp [h1], by simp [h2], h3, h4⟩

/-- C9: advisory triggering is total (no outcome is an exception), and an
unavailable or failing `AdvisoryTriggerRule` table only costs the
condition-based source: the intake-path source still fires exactly the
same teams (with default gates), and with a working table the full
advisory list extends the degraded one. -/
theorem advisory_trigger_resilient :
    ∀ (req : AdvReq) (s? : Option String) (rules : List AdvisoryTriggerRule),
      (triggerAdvisories req s? none).advisories = (phase1 req s? none).advisories ∧
      (triggerAdvisories req s? none).inputs = (phase1 req s? none).inputs ∧
      (phase1 req s? (some rules)).advisories = (phase1 req s? none).advisories ∧
      ((phase1 req s? (some rules)).inputs.map (fun a => a.team) =
        (phase1 req s? none).inputs.map (fun a => a.team)) ∧
      ∃ rest, (triggerAdvisories req s? (some rules)).advisories =
        (triggerAdvisories req s? none).advisories ++ rest := by
  intro req s? rules
  have hind : (phase1 req s? (some rules)).advisories = (phase1 req s? none).advisories ∧
      (phase1 req s? (some rules)).inputs.map (fun a => a.team) =
        (phase1 req s? none).inputs.map (fun a => a.team) := by
    cases s? with
    | none => exact ⟨rfl, rfl⟩
    | some s =>
        by_cases hg : (s.isEmpty || s.trim.toLower == "none") = true
        · simp [phase1, hg]
        · have hgf := eq_false_of_ne_true hg
          simp only [phase1, hgf, Bool.false_eq_true, if_false]
          obtain ⟨h1, h2, _, _⟩ := phase1Go_rules_indep
            (((s.splitOn ",").map (fun c => c.trim)).filter (fun c => c != "")) req []
            rules
          exact ⟨h1, h2⟩
  refine ⟨rfl, rfl, hind.1, hind.2, ?_⟩
  refine ⟨(phase2Go (phase1 req s? (some rules)).request rules
    (phase1 req s? (some rules)).triggered).1, ?_⟩
  show (phase1 req s? (some rules)).advisories ++ _ =
    (phase1 req s? none).advisories ++ _
  rw [hind.1]

/-- When `_find_next_step` finds nothing, no row is a candidate (pending
with a strictly greater step number). -/
theorem nextStepIdx_none (rows : List StepRow) (cur : Nat)
    (h : nextStepIdx rows cur = none) :
    ∀ s ∈ rows, ¬(cur < s.step_number ∧ s.status = "pending") := by
  induction rows with
  | nil => intro s hs; cases hs
  | cons x rest ih =>
      intro s hs
      simp only [nextStepIdx] at h
      by_cases hx : (decide (cur < x.step_number) && (x.status == "pending")) = true
      · rw [if_pos hx] at h
        cases hre : nextStepIdx rest cur with
        | none => rw [hre] at h; cases h
        | some p =>
            rw [hre] at h
            simp only [Option.map_some'] at h
            by_cases hlt : p.2.step_number < x.step_number
            · rw [if_pos hlt] at h; cases h
            · rw [if_neg hlt] at h; cases h
      · rw [if_neg hx] at h
        rcases List.mem_cons.mp hs with h1 | h1
        · intro hc
          apply hx
          rw [h1] at hc
          simp [hc.1, hc.2]
        · cases hre : nextStepIdx rest cur with
          | none => exact ih hre s h1
          | some p => rw [hre] at h; cases h

/-- What `_find_next_step` returns: the position and row of a `pending`
step strictly after the current number, minimal in step number among all
such candidates (the earliest-inserted on ties). -/
theorem nextStepIdx_some (rows : List StepRow) (cur j : Nat) (r : StepRow)
    (h : nextStepIdx rows cur = some (j, r)) :
    rows[j]? = some r ∧ cur < r.step_number ∧ r.status = "pending" ∧
    ∀ s ∈ rows, cur < s.step_number → s.status = "pending" →
      r.step_number ≤ s.step_number := by
  induction rows generalizing j r with
  | nil => cases h
  | cons x rest ih =>
      simp only [nextStepIdx] at h
      by_cases hx : (decide (cur < x.step_number) && (x.status == "pending")) = true
      · have hxlt : cur < x.step_number := by
          rw [Bool.and_eq_true] at hx
          exact of_decide_eq_true hx.1
        have hxp : x.status = "pending" := by
          rw [Bool.and_eq_true] at hx
          exact beq_iff_eq.mp hx.2
        rw [if_pos hx] at h
        cases hre : nextStepIdx rest cur with
        | none =>
            rw [hre] at h
            simp only [Option.map_none'] at h
            cases h
            refine ⟨by simp, hxlt, hxp, ?_⟩
            intro s hs hslt hsp
            rcases List.mem_cons.mp hs with h1 | h1
            · rw [h1]
            · exact absurd ⟨hslt, hsp⟩ (nextStepIdx_none rest cur hre s h1)
        | some p =>
            rw [hre] at h
            simp only [Option.map_some'] at h
            by_cases hlt : p.2.step_number < x.step_number
            · rw [if_pos hlt] at h
              cases h
              obtain ⟨hget, hlt2, hp2, hmin⟩ := ih p.1 p.2 (by rw [hre])
              refine ⟨by simpa using hget, hlt2, hp2, ?_⟩
              intro s hs hslt hsp
              rcases List.mem_cons.mp hs with h1 | h1
              · rw [h1]
                exact Nat.le_of_lt hlt
              · exact hmin s h1 hslt hsp
            · rw [if_neg hlt] at h
              cases h
              obtain ⟨hget, hlt2, hp2, hmin⟩ := ih p.1 p.2 (by rw [hre])
              refine ⟨by simp, hxlt, hxp, ?_⟩
              intro s hs hslt hsp
              rcases List.mem_cons.mp hs with h1 | h1
              · rw [h1]
              · exact Nat.le_trans (Nat.le_of_not_lt hlt) (hmin s h1 hslt hsp)
      · rw [if_neg hx] at h
        cases hre : nextStepIdx rest cur with
        | none => rw [hre] at h; cases h
        | some p =>
            rw [hre] at h
            simp only [Option.map_some'] at h
            cases h
            obtain ⟨hget, hlt2, hp2, hmin⟩ := ih p.1 p.2 (by rw [hre])
            refine ⟨by simpa using hget, hlt2, hp2, ?_⟩
            intro s hs hslt hsp
            rcases List.mem_cons.mp hs with h1 | h1
            · exfalso
              apply hx
              rw [h1] at hslt hsp
              simp [hslt, hsp]
            · exact hmin s h1 hslt hsp

/-- C4: approving the active step marks it `approved` with actor and
timestamp; the lowest-numbered `pending` step with a strictly greater step
number (skipped steps are passed over) is then activated with
`due_date = now +` its template SLA days and the request status becomes
its mapped gate name; when no such step exists the request becomes
terminal `approved` and the requestor gets the fully-approved
notification. -/
theorem process_approve_advances :
    ∀ (st : WorkflowState) (idx : Nat) (step : StepRow) (actorName : String)
      (actorId : Option Nat) (comments : Option String) (tmpl? : Option Template)
      (now : Nat),
      st.steps[idx]? = some step → step.status = "active" →
      (let step' := actedRow step "approved" actorName actorId comments now
       let steps1 := st.steps.set idx step'
       ∃ res, processApproval st idx "approve" actorName actorId comments tmpl? now =
          ProcOutcome.ok res ∧
        res.state.steps[idx]? = some step' ∧
        (nextStepIdx steps1 step.step_number = none →
          (∀ s ∈ steps1, ¬(step.step_number < s.step_number ∧ s.status = "pending")) ∧
          res.state = { reqStatus := "approved", steps := steps1 } ∧
          res.notices = [Notice.requestor "request_fully_approved"]) ∧
        (∀ q nxt, nextStepIdx steps1 step.step_number = some (q, nxt) →
          steps1[q]? = some nxt ∧
          step.step_number < nxt.step_number ∧ nxt.status = "pending" ∧
          (∀ s ∈ steps1, step.step_number < s.step_number → s.status = "pending" →
            nxt.step_number ≤ s.step_number) ∧
          res.state = { reqStatus := stepToStatus nxt.step_name,
                        steps := steps1.set q
                          (activateRow nxt now (getSlaDays tmpl? nxt.step_number)) } ∧
          res.notices = [Notice.role nxt.approver_role "step_activated"])) := by
  intro st idx step actorName actorId comments tmpl? now hget hst
  intro step' steps1
  have hbne : (step.status != "active") = false := by simp [hst]
  have hidx1 : steps1[idx]? = some step' := by
    rw [List.getElem?_set_self ((List.getElem?_eq_some.mp hget).1)]
  simp only [processApproval, hget, hbne, Bool.false_eq_true, if_false, if_pos rfl]
  cases hnext : nextStepIdx steps1 step.step_number with
  | none =>
      refine ⟨{ state := { reqStatus := "approved", steps := steps1 },
                notices := [Notice.requestor "request_fully_approved"],
                requestStatus := "approved", stepName := step.step_name },
              by rw [if_pos (show ("approve" == "approve") = true from rfl)], hidx1, ?_, ?_⟩
      · intro _
        exact ⟨nextStepIdx_none steps1 step.step_number hnext, rfl, rfl⟩
      · intro q nxt hq
        cases hq
  | some p =>
      obtain ⟨hget2, hlt2, hp2, hmin2⟩ :=
        nextStepIdx_some steps1 step.step_number p.1 p.2 (by rw [hnext])
      have hne : p.1 ≠ idx := by
        intro hji
        rw [hji, hidx1] at hget2
        have hnum : step'.step_number = p.2.step_number := by
          rw [← Option.some_inj.mp hget2]
        have hsn : step'.step_number = step.step_number := rfl
        omega
      refine ⟨{ state := { reqStatus := stepToStatus p.2.step_name,
                           steps := steps1.set p.1 (activateRow p.2 now
                             (getSlaDays tmpl? p.2.step_number)) },
                notices := [Notice.role p.2.approver_role "step_activated"],
                requestStatus := stepToStatus p.2.step_name,
                stepName := step.step_name },
              by rw [if_pos (show ("approve" == "approve") = true from rfl)], ?_, ?_, ?_⟩
      · show (steps1.set p.1 (activateRow p.2 now (getSlaDays tmpl? p.2.step_number)))[idx]? =
          some step'
        rw [List.getElem?_set_ne hne]
        exact hidx1
      · intro hq
        cases hq
      · intro q nxt hq
        cases hq
        exact ⟨hget2, hlt2, hp2, hmin2, rfl, rfl⟩

/-- The active step of the C4 witness scenario. -/
def c4Active : StepRow :=
  { step_number := 1, step_name := "ISS", approver_role := "branch_chief",
    status := "active" }

/-- The pending step the C4 witness scenario activates next (the skipped
step 2 is passed over). -/
def c4Pending : StepRow :=
  { step_number := 3, step_name := "Finance", approver_role := "budget",
    status := "pending" }

/-- A request at gate 1 with a skipped step 2 and a pending step 3. -/
def c4State : WorkflowState :=
  { reqStatus := "iss_review",
    steps := [ c4Active,
               { step_number := 2, step_name := "Legal Review",
                 approver_role := "legal", status := "skipped" },
               c4Pending ] }

/-- Witness for `process_approve_advances`: approving the active first step
jumps over the skipped step and activates the pending third one. -/
theorem process_approve_advances_witness :
    ∃ res, processApproval c4State 0 "approve" "Jane Smith" none none none 9 =
        ProcOutcome.ok res ∧
      res.state.reqStatus = "finance_review" ∧
      res.notices = [Notice.role "budget" "step_activated"] := by
  obtain ⟨res, hok, hidx, hnone, hsome⟩ :=
    process_approve_advances c4State 0 c4Active "Jane Smith" none none none 9 rfl rfl
  obtain ⟨hg, hlt, hp, hmin, hstate, hnot⟩ := hsome 2 c4Pending (by rfl)
  refine ⟨res, hok, ?_, ?_⟩
  · rw [hstate]
    rfl
  · rw [hnot]
    rfl

/-- A step that sits before the active one in a well-formed run: already
`approved` or `skipped`. -/
def lowOk (s : StepRow) : Prop := s.status = "approved" ∨ s.status = "skipped"

/-- A step that sits after the active one: still `pending` or `skipped`. -/
def highOk (s : StepRow) : Prop := s.status = "pending" ∨ s.status = "skipped"

/-- No step of the request is `active`. -/
def NoActive (rows : List StepRow) : Prop := ∀ s ∈ rows, s.status ≠ "active"

/-- The rows are stored in strictly increasing step-number order. -/
def StrictByNumber (rows : List StepRow) : Prop :=
  (rows.map (fun s => s.step_number)).Pairwise (fun a b => a < b)

/-- The reachable shape of a request's step list: either no step is active,
or exactly one is, with everything before it `approved`/`skipped` and
everything after it `pending`/`skipped`. -/
def ActiveShape (rows : List StepRow) : Prop :=
  NoActive rows ∨
  ∃ pre act post, rows = pre ++ act :: post ∧ act.status = "active" ∧
    (∀ s ∈ pre, lowOk s) ∧ (∀ s ∈ post, highOk s)

/-- The inductive invariant of the approval state machine. -/
def InvStrong (st : WorkflowState) : Prop :=
  StrictByNumber st.steps ∧ ActiveShape st.steps

/-- The spec's template-data invariant: the materialized (ordered) steps of
a template carry strictly increasing step numbers (admin reordering
renumbers 1..N). -/
def TemplateOk (t : Template) : Prop :=
  ((sortedSteps t).map (fun ts => ts.step_number)).Pairwise (fun a b => a < b)

/-- An operation respecting the template-data invariant. -/
def OpOk : Op → Prop
  | .submit tmpl? _ => ∀ t, tmpl? = some t → TemplateOk t
  | .approval _ _ _ _ _ _ _ => True

/-- The per-request invariant claimed by the spec, with the amendment that
steps after the active one may also be `skipped`. -/
def C1Post (st : WorkflowState) : Prop :=
  st.steps.countP (fun s => s.status == "active") ≤ 1 ∧
  ∀ a ∈ st.steps, a.status = "active" →
    ∀ b ∈ st.steps,
      (b.step_number < a.step_number → b.status = "approved" ∨ b.status = "skipped") ∧
      (a.step_number < b.step_number → b.status = "pending" ∨ b.status = "skipped")

/-- The spec's invariant exactly as stated: every step after the active one
is `pending`. -/
def C1Orig (st : WorkflowState) : Prop :=
  st.steps.countP (fun s => s.status == "active") ≤ 1 ∧
  ∀ a ∈ st.steps, a.status = "active" →
    ∀ b ∈ st.steps,
      (b.step_number < a.step_number → b.status = "approved" ∨ b.status = "skipped") ∧
      (a.step_number < b.step_number → b.status = "pending")

/-- `getElem?` membership. -/
theorem mem_of_getElem2 {α : Type} (l : List α) (i : Nat) (a : α) (h : l[i]? = some a) :
    a ∈ l := by
  obtain ⟨hlt, hget⟩ := List.getElem?_eq_some.mp h
  exact hget ▸ List.getElem_mem hlt

/-- Setting the element right after a prefix. -/
theorem set_append_length {α : Type} (l1 : List α) (a b : α) (l2 : List α) :
    (l1 ++ a :: l2).set l1.length b = l1 ++ b :: l2 := by
  induction l1 with
  | nil => rfl
  | cons x xs ih => simp [List.set, ih]

/-- A successful index lookup splits the list around the found element. -/
theorem getElem2_split {α : Type} (l : List α) (k : Nat) (x : α) (h : l[k]? = some x) :
    ∃ l1 l2, l = l1 ++ x :: l2 ∧ l1.length = k := by
  induction l generalizing k with
  | nil => cases h
  | cons y ys ih =>
      cases k with
      | zero =>
          simp only [List.getElem?_cons_zero, Option.some_inj] at h
          exact ⟨[], ys, by rw [h]; rfl, rfl⟩
      | succ k2 =>
          simp only [List.getElem?_cons_succ] at h
          obtain ⟨l1, l2, hsplit, hlen⟩ := ih k2 h
          exact ⟨y :: l1, l2, by rw [hsplit]; rfl, by simp [hlen]⟩

/-- Activation does not change step numbers. -/
theorem activateFirst_numbers (rows : List StepRow) (tmpl : Template) (now : Nat) :
    (activateFirst rows tmpl now).1.map (fun s => s.step_number) =
      rows.map (fun s => s.step_number) := by
  induction rows with
  | nil => rfl
  | cons r rest ih =>
      by_cases hr : (r.status == "pending") = true
      · simp [activateFirst, hr, activateRow]
      · have hrf := eq_false_of_ne_true hr
        simp only [activateFirst, hrf, Bool.false_eq_true, if_false, List.map_cons]
        rw [ih]

/-- When the activation loop activates nothing, the rows are unchanged and
none of them was `pending`. -/
theorem activateFirst_none (rows : List StepRow) (tmpl : Template) (now : Nat)
    (h : (activateFirst rows tmpl now).2 = none) :
    (activateFirst rows tmpl now).1 = rows ∧ ∀ r ∈ rows, r.status ≠ "pending" := by
  induction rows with
  | nil => exact ⟨rfl, by simp⟩
  | cons r rest ih =>
      by_cases hr : (r.status == "pending") = true
      · simp only [activateFirst, hr, if_true] at h
        cases h
      · have hrf := eq_false_of_ne_true hr
        simp only [activateFirst, hrf, Bool.false_eq_true, if_false] at h ⊢
        obtain ⟨h1, h2⟩ := ih h
        refine ⟨by rw [h1], ?_⟩
        intro s hs
        rcases List.mem_cons.mp hs with h3 | h3
        · rw [h3]
          exact beq_eq_false_iff_ne.mp hrf
        · exact h2 s h3

/-- Submitting preserves the state-machine invariant (for templates
respecting the data invariant). -/
theorem submit_preserves (st : WorkflowState) (tmpl? : Option Template)
    (attrs : String → Option PyVal) (now : Nat)
    (hok : OpOk (Op.submit tmpl? now)) (hinv : InvStrong st) :
    InvStrong (stepOp attrs st (Op.submit tmpl? now)) := by
  cases hsub : submitRequest st tmpl? attrs now with
  | err m => simp only [stepOp, hsub]; exact hinv
  | exn m => simp only [stepOp, hsub]; exact hinv
  | ok r =>
      simp only [stepOp, hsub]
      cases tmpl? with
      | none =>
          exfalso
          unfold submitRequest at hsub
          by_cases hguard : (st.reqStatus != "draft" && st.reqStatus != "returned") = true
          · rw [if_pos hguard] at hsub
            cases hsub
          · rw [if_neg hguard] at hsub
            cases hsub
      | some tmpl =>
          have htok : TemplateOk tmpl := hok tmpl rfl
          simp only [submitRequest] at hsub
          by_cases hguard : (st.reqStatus != "draft" && st.reqStatus != "returned") = true
          · rw [if_pos hguard] at hsub
            cases hsub
          · rw [if_neg hguard] at hsub
            cases hmat : materializeSteps (sortedSteps tmpl) attrs with
            | error e =>
                simp only [hmat] at hsub
                cases hsub
            | ok rows =>
                simp only [hmat] at hsub
                cases hact : activateFirst rows tmpl now with
                | mk rows2 actOpt =>
                    simp only [hact] at hsub
                    cases hsub
                    have hnums : rows2.map (fun s => s.step_number) =
                        rows.map (fun s => s.step_number) := by
                      have h2 := activateFirst_numbers rows tmpl now
                      rw [hact] at h2
                      exact h2
                    constructor
                    · show StrictByNumber rows2
                      unfold StrictByNumber
                      rw [hnums, materializeSteps_numbers _ _ _ hmat]
                      exact htok
                    · show ActiveShape rows2
                      cases actOpt with
                      | none =>
                          obtain ⟨h1, h2⟩ := activateFirst_none rows tmpl now
                            (by rw [hact])
                          rw [hact] at h1
                          cases h1
                          left
                          intro s hs
                          rcases materializeSteps_status _ _ _ hmat s hs with h3 | h3
                          · exact absurd h3 (h2 s hs)
                          · rw [h3]
                            decide
                      | some a =>
                          obtain ⟨pre, rr, post, hrows, hpre, hpend, ha, hfst⟩ :=
                            activateFirst_first_pending rows tmpl now a (by rw [hact])
                          rw [hact] at hfst
                          cases hfst
                          right
                          refine ⟨pre, a, post, rfl, by rw [ha]; rfl, ?_, ?_⟩
                          · intro s hs
                            have hsrows : s ∈ rows := by
                              rw [hrows]
                              exact List.mem_append_left _ hs
                            rcases materializeSteps_status _ _ _ hmat s hsrows with h3 | h3
                            · exact absurd h3 (hpre s hs)
                            · exact Or.inr h3
                          · intro s hs
                            have hsrows : s ∈ rows := by
                              rw [hrows]
                              exact List.mem_append_right _ (List.mem_cons_of_mem _ hs)
                            exact materializeSteps_status _ _ _ hmat s hsrows

/-- Aligning two splits of one list when the second split point lies
strictly deeper. -/
theorem split_align {α : Type} (pre : List α) (x : α) (post l1 : List α) (y : α)
    (l2 : List α) (h : pre ++ x :: post = l1 ++ y :: l2)
    (hlen : pre.length < l1.length) :
    ∃ mid, l1 = pre ++ x :: mid ∧ post = mid ++ y :: l2 := by
  induction pre generalizing l1 with
  | nil =>
      cases l1 with
      | nil => cases hlen
      | cons b l1t =>
          simp only [List.nil_append, List.cons_append, List.cons.injEq] at h
          exact ⟨l1t, by rw [h.1]; rfl, h.2⟩
  | cons a pret ih =>
      cases l1 with
      | nil => cases hlen
      | cons b l1t =>
          simp only [List.cons_append, List.cons.injEq] at h
          have hlen2 : pret.length < l1t.length := by
            simpa using hlen
          obtain ⟨mid, h1, h2⟩ := ih l1t h.2 hlen2
          exact ⟨mid, by rw [h.1, h1]; rfl, h2⟩

/-- In a well-formed decomposition, only the decomposition point can hold
an `active` row. -/
theorem active_idx_eq (pre : List StepRow) (act : StepRow) (post : List StepRow)
    (hpre : ∀ s ∈ pre, lowOk s) (hpost : ∀ s ∈ post, highOk s)
    (idx : Nat) (step : StepRow)
    (hget : (pre ++ act :: post)[idx]? = some step) (hsa : step.status = "active") :
    idx = pre.length ∧ step = act := by
  rcases Nat.lt_trichotomy idx pre.length with hl | he | hg
  · exfalso
    have hx : (pre ++ act :: post)[idx]? = pre[idx]? := by
      rw [List.getElem?_append]
      simp [hl]
    rw [hx] at hget
    rcases hpre step (mem_of_getElem2 _ _ _ hget) with h | h <;> rw [h] at hsa <;>
      exact absurd hsa (by decide)
  · subst he
    have hx : (pre ++ act :: post)[pre.length]? = some act := by
      rw [List.getElem?_append]
      simp
    rw [hx] at hget
    exact ⟨rfl, (Option.some_inj.mp hget).symm⟩
  · exfalso
    obtain ⟨k, hk⟩ := Nat.exists_eq_add_of_lt hg
    have hx : (pre ++ act :: post)[idx]? = post[k]? := by
      rw [List.getElem?_append]
      rw [hk]
      have h1 : ¬ (pre.length + k + 1 < pre.length) := by omega
      simp only [h1, if_false]
      have h2 : pre.length + k + 1 - pre.length = k + 1 := by omega
      rw [h2, List.getElem?_cons_succ]
    rw [hx] at hget
    rcases hpost step (mem_of_getElem2 _ _ _ hget) with h | h <;> rw [h] at hsa <;>
      exact absurd hsa (by decide)

/-- Number bounds across a strictly sorted decomposition. -/
theorem strict_decomp (pre : List StepRow) (act : StepRow) (post : List StepRow)
    (h : StrictByNumber (pre ++ act :: post)) :
    (∀ s ∈ pre, s.step_number < act.step_number) ∧
    (∀ s ∈ post, act.step_number < s.step_number) := by
  unfold StrictByNumber at h
  rw [List.map_append, List.map_cons, List.pairwise_append] at h
  obtain ⟨h1, h2, h3⟩ := h
  rw [List.pairwise_cons] at h2
  constructor
  · intro s hs
    exact h3 s.step_number (List.mem_map_of_mem _ hs) act.step_number (by simp)
  · intro s hs
    exact h2.1 s.step_number (List.mem_map_of_mem _ hs)

/-- Processing an approval action preserves the state-machine invariant. -/
theorem approval_preserves (st : WorkflowState) (idx : Nat) (action actorName : String)
    (actorId : Option Nat) (comments : Option String) (tmpl? : Option Template)
    (now : Nat) (attrs : String → Option PyVal) (hinv : InvStrong st) :
    InvStrong (stepOp attrs st (Op.approval idx action actorName actorId comments tmpl? now)) := by
  cases hproc : processApproval st idx action actorName actorId comments tmpl? now with
  | err m => simp only [stepOp, hproc]; exact hinv
  | ok r =>
      simp only [stepOp, hproc]
      simp only [processApproval] at hproc
      cases hget : st.steps[idx]? with
      | none =>
          simp only [hget] at hproc
          cases hproc
      | some step =>
          simp only [hget] at hproc
          by_cases hstat : (step.status != "active") = true
          · rw [if_pos hstat] at hproc
            cases hproc
          · rw [if_neg hstat] at hproc
            have hsa : step.status = "active" := by simpa using hstat
            rcases hinv.2 with hno | ⟨pre, act, post, hdecomp, hacts, hpre, hpost⟩
            · exact absurd hsa (hno step (mem_of_getElem2 _ _ _ hget))
            rw [hdecomp] at hget
            obtain ⟨hidx, hstep⟩ :=
              active_idx_eq pre act post hpre hpost idx step hget hsa
            subst hidx
            subst hstep
            have hstrict0 : StrictByNumber (pre ++ step :: post) := by
              rw [← hdecomp]
              exact hinv.1
            obtain ⟨hGpre, hGpost⟩ := strict_decomp pre step post hstrict0
            by_cases hap : (action == "approve") = true
            · rw [if_pos hap] at hproc
              have hsteps1 : st.steps.set pre.length
                  (actedRow step "approved" actorName actorId comments now) =
                  pre ++ actedRow step "approved" actorName actorId comments now :: post := by
                rw [hdecomp]
                exact set_append_length _ _ _ _
              have strict1 : StrictByNumber
                  (pre ++ actedRow step "approved" actorName actorId comments now :: post) := by
                unfold StrictByNumber at hstrict0 ⊢
                simpa [actedRow] using hstrict0
              cases hnext : nextStepIdx (st.steps.set pre.length
                  (actedRow step "approved" actorName actorId comments now))
                  step.step_number with
              | none =>
                  simp only [hnext] at hproc
                  cases hproc
                  constructor
                  · show StrictByNumber (st.steps.set pre.length
                      (actedRow step "approved" actorName actorId comments now))
                    rw [hsteps1]
                    exact strict1
                  · show ActiveShape (st.steps.set pre.length
                      (actedRow step "approved" actorName actorId comments now))
                    rw [hsteps1]
                    left
                    intro s hs
                    rcases List.mem_append.mp hs with h1 | h1
                    · rcases hpre s h1 with h | h <;> rw [h] <;> decide
                    · rcases List.mem_cons.mp h1 with h2 | h2
                      · rw [h2]
                        exact (by decide : ("approved" : String) ≠ "active")
                      · rcases hpost s h2 with h | h <;> rw [h] <;> decide
              | some p =>
                  simp only [hnext] at hproc
                  cases hproc
                  obtain ⟨hget2, hlt2, hp2, hmin2⟩ :=
                    nextStepIdx_some _ step.step_number p.1 p.2 (by rw [hnext])
                  rw [hsteps1] at hget2
                  have hppos : pre.length < p.1 := by
                    rcases Nat.lt_trichotomy p.1 pre.length with hl | he | hg
                    · exfalso
                      have hx : (pre ++ actedRow step "approved" actorName actorId
                          comments now :: post)[p.1]? = pre[p.1]? := by
                        rw [List.getElem?_append]
                        simp [hl]
                      rw [hx] at hget2
                      rcases hpre p.2 (mem_of_getElem2 _ _ _ hget2) with h | h <;>
                        rw [h] at hp2 <;> exact absurd hp2 (by decide)
                    · exfalso
                      have hx : (pre ++ actedRow step "approved" actorName actorId
                          comments now :: post)[p.1]? =
                          some (actedRow step "approved" actorName actorId comments now) := by
                        rw [he, List.getElem?_append]
                        simp
                      rw [hx] at hget2
                      have h2 := Option.some_inj.mp hget2
                      rw [← h2] at hp2
                      exact absurd hp2 (by exact (by decide : ¬ ("approved" : String) = "pending"))
                    · exact hg
                  obtain ⟨l1x, l2x, hsplit, hlen⟩ := getElem2_split _ p.1 p.2 hget2
                  obtain ⟨mid, hl1, hpost2⟩ := split_align pre _ post l1x p.2 l2x
                    hsplit (by omega)
                  have strict2 : StrictByNumber (l1x ++ p.2 :: l2x) := by
                    rw [← hsplit]
                    exact strict1
                  obtain ⟨hbefore, hafter⟩ := strict_decomp l1x p.2 l2x strict2
                  have hset2 : (st.steps.set pre.length
                      (actedRow step "approved" actorName actorId comments now)).set p.1
                      (activateRow p.2 now (getSlaDays tmpl? p.2.step_number)) =
                      l1x ++ activateRow p.2 now (getSlaDays tmpl? p.2.step_number) :: l2x := by
                    rw [hsteps1, hsplit, ← hlen]
                    exact set_append_length _ _ _ _
                  constructor
                  · show StrictByNumber ((st.steps.set pre.length
                      (actedRow step "approved" actorName actorId comments now)).set p.1
                      (activateRow p.2 now (getSlaDays tmpl? p.2.step_number)))
                    rw [hset2]
                    unfold StrictByNumber at strict2 ⊢
                    simpa [activateRow] using strict2
                  · show ActiveShape ((st.steps.set pre.length
                      (actedRow step "approved" actorName actorId comments now)).set p.1
                      (activateRow p.2 now (getSlaDays tmpl? p.2.step_number)))
                    rw [hset2]
                    right
                    refine ⟨l1x, activateRow p.2 now (getSlaDays tmpl? p.2.step_number),
                      l2x, rfl, rfl, ?_, ?_⟩
                    · intro s hs0
                      have hsl1 := hs0
                      rw [hl1] at hs0
                      rcases List.mem_append.mp hs0 with h1 | h1
                      · exact hpre s h1
                      · rcases List.mem_cons.mp h1 with h2 | h2
                        · rw [h2]
                          left
                          rfl
                        · have hspost : s ∈ post := by
                            rw [hpost2]
                            exact List.mem_append_left _ h2
                          rcases hpost s hspost with h | h
                          · exfalso
                            have hgt : step.step_number < s.step_number := hGpost s hspost
                            have hsmem : s ∈ st.steps.set pre.length
                                (actedRow step "approved" actorName actorId comments now) := by
                              rw [hsteps1, hsplit]
                              exact List.mem_append_left _ hsl1
                            have hle := hmin2 s hsmem hgt h
                            have hlt3 : s.step_number < p.2.step_number := hbefore s hsl1
                            omega
                          · exact Or.inr h
                    · intro s hs0
                      have hspost : s ∈ post := by
                        rw [hpost2]
                        exact List.mem_append_right _ (List.mem_cons_of_mem _ hs0)
                      exact hpost s hspost
            · rw [if_neg hap] at hproc
              by_cases hrej : (action == "reject") = true
              · rw [if_pos hrej] at hproc
                cases hproc
                have hs1 : st.steps.set pre.length
                    (actedRow step "rejected" actorName actorId comments now) =
                    pre ++ actedRow step "rejected" actorName actorId comments now :: post := by
                  rw [hdecomp]
                  exact set_append_length _ _ _ _
                constructor
                · show StrictByNumber (st.steps.set pre.length
                    (actedRow step "rejected" actorName actorId comments now))
                  rw [hs1]
                  unfold StrictByNumber at hstrict0 ⊢
                  simpa [actedRow] using hstrict0
                · show ActiveShape (st.steps.set pre.length
                    (actedRow step "rejected" actorName actorId comments now))
                  rw [hs1]
                  left
                  intro s hs
                  rcases List.mem_append.mp hs with h1 | h1
                  · rcases hpre s h1 with h | h <;> rw [h] <;> decide
                  · rcases List.mem_cons.mp h1 with h2 | h2
                    · rw [h2]
                      exact (by decide : ("rejected" : String) ≠ "active")
                    · rcases hpost s h2 with h | h <;> rw [h] <;> decide
              · rw [if_neg hrej] at hproc
                by_cases hret : (action == "return") = true
                · rw [if_pos hret] at hproc
                  cases hproc
                  have hs1 : st.steps.set pre.length
                      (actedRow step "returned" actorName actorId comments now) =
                      pre ++ actedRow step "returned" actorName actorId comments now :: post := by
                    rw [hdecomp]
                    exact set_append_length _ _ _ _
                  constructor
                  · show StrictByNumber (st.steps.set pre.length
                      (actedRow step "returned" actorName actorId comments now))
                    rw [hs1]
                    unfold StrictByNumber at hstrict0 ⊢
                    simpa [actedRow] using hstrict0
                  · show ActiveShape (st.steps.set pre.length
                      (actedRow step "returned" actorName actorId comments now))
                    rw [hs1]
                    left
                    intro s hs
                    rcases List.mem_append.mp hs with h1 | h1
                    · rcases hpre s h1 with h | h <;> rw [h] <;> decide
                    · rcases List.mem_cons.mp h1 with h2 | h2
                      · rw [h2]
                        exact (by decide : ("returned" : String) ≠ "active")
                      · rcases hpost s h2 with h | h <;> rw [h] <;> decide
                · rw [if_neg hret] at hproc
                  cases hproc

/-- Running any sequence of invariant-respecting operations preserves the
invariant. -/
theorem runOps_inv (attrs : String → Option PyVal) (ops : List Op) :
    ∀ st, InvStrong st → (∀ op ∈ ops, OpOk op) → InvStrong (runOps attrs ops st) := by
  induction ops with
  | nil => intro st h _; exact h
  | cons op rest ih =>
      intro st h hops
      show InvStrong (runOps attrs rest (stepOp attrs st op))
      apply ih
      · cases op with
        | submit tmpl? now =>
            exact submit_preserves st tmpl? attrs now (hops _ (List.mem_cons_self _ _)) h
        | approval idx action nm aid c tmpl? now =>
            exact approval_preserves st idx action nm aid c tmpl? now attrs h
      · intro o ho
        exact hops o (List.mem_cons_of_mem _ ho)

/-- The inductive invariant entails the claimed per-request property. -/
theorem inv_implies_post (st : WorkflowState) (h : InvStrong st) : C1Post st := by
  obtain ⟨hstrict, hshape⟩ := h
  rcases hshape with hno | ⟨pre, act, post, hdecomp, hacts, hpre, hpost⟩
  · constructor
    · have hz : st.steps.countP (fun s => s.status == "active") = 0 := by
        apply List.countP_eq_zero.mpr
        intro s hs
        simpa using hno s hs
      omega
    · intro a ha hact
      exact absurd hact (hno a ha)
  · obtain ⟨hGpre, hGpost⟩ := strict_decomp pre act post (by rw [← hdecomp]; exact hstrict)
    constructor
    · rw [hdecomp, List.countP_append, List.countP_cons]
      have h1 : pre.countP (fun s => s.status == "active") = 0 := by
        apply List.countP_eq_zero.mpr
        intro s hs
        rcases hpre s hs with h2 | h2 <;> simp [h2]
      have h2 : post.countP (fun s => s.status == "active") = 0 := by
        apply List.countP_eq_zero.mpr
        intro s hs
        rcases hpost s hs with h2 | h2 <;> simp [h2]
      simp only [h1, h2, hacts, beq_self_eq_true, if_pos]
      simp
    · intro a ha hact
      rw [hdecomp] at ha
      have haeq : a = act := by
        rcases List.mem_append.mp ha with h1 | h1
        · exfalso
          rcases hpre a h1 with h2 | h2 <;> rw [h2] at hact <;>
            exact absurd hact (by decide)
        · rcases List.mem_cons.mp h1 with h2 | h2
          · exact h2
          · exfalso
            rcases hpost a h2 with h3 | h3 <;> rw [h3] at hact <;>
              exact absurd hact (by decide)
      intro b hb
      rw [hdecomp] at hb
      constructor
      · intro hblt
        rcases List.mem_append.mp hb with h1 | h1
        · exact hpre b h1
        · rcases List.mem_cons.mp h1 with h2 | h2
          · exfalso
            rw [h2, haeq] at hblt
            omega
          · exfalso
            have h3 := hGpost b h2
            rw [haeq] at hblt
            omega
      · intro hblt
        rcases List.mem_append.mp hb with h1 | h1
        · exfalso
          have h3 := hGpre b h1
          rw [haeq] at hblt
          omega
        · rcases List.mem_cons.mp h1 with h2 | h2
          · exfalso
            rw [h2, haeq] at hblt
            omega
          · exact hpost b h2

/-- C1 (amended): starting from a fresh request, after any sequence of
`submit_request` and `process_approval` operations whose templates respect
the documented strictly-increasing step-number invariant, at most one
`ApprovalStep` is `active`; every lower-numbered step is `approved` or
`skipped`, and every higher-numbered step is `pending` or `skipped`
(skipped conditional steps may sit after the active one). -/
theorem single_active_invariant :
    ∀ (attrs : String → Option PyVal) (ops : List Op),
      (∀ op ∈ ops, OpOk op) → C1Post (runOps attrs ops initState) := by
  intro attrs ops hops
  apply inv_implies_post
  apply runOps_inv attrs ops initState ?_ hops
  constructor
  · exact List.Pairwise.nil
  · left
    intro s hs
    cases hs

instance decTemplateOk (t : Template) : Decidable (TemplateOk t) := by
  unfold TemplateOk
  infer_instance

instance decC1Post (st : WorkflowState) : Decidable (C1Post st) := by
  unfold C1Post
  infer_instance

instance decC1Orig (st : WorkflowState) : Decidable (C1Orig st) := by
  unfold C1Orig
  infer_instance

/-- The two-step micro pipeline used by the C1 witness run. -/
def c1Tmpl : Template :=
  { name := "Micro-Purchase Pipeline", template_key := "APPR-MICRO",
    pipeline_type := "micro",
    steps :=
      [ { step_number := 1, step_name := "Supervisor", approver_role := "branch_chief",
          sla_days := 2, is_enabled := true, is_conditional := false,
          condition_rule := none },
        { step_number := 2, step_name := "GPC Holder", approver_role := "budget",
          sla_days := 2, is_enabled := true, is_conditional := false,
          condition_rule := none } ] }

/-- The C1 witness run: submit, then approve step 1. -/
def c1Ops : List Op :=
  [ Op.submit (some c1Tmpl) 0,
    Op.approval 0 "approve" "Sam Lee" none none (some c1Tmpl) 1 ]

/-- Witness for `single_active_invariant` on a concrete two-step run. -/
theorem single_active_invariant_witness :
    (∀ op ∈ c1Ops, OpOk op) ∧ C1Post (runOps (fun _ => none) c1Ops initState) := by
  have hops : ∀ op ∈ c1Ops, OpOk op := by
    intro op hop
    rcases List.mem_cons.mp hop with h | h
    · subst h
      intro t ht
      cases ht
      show TemplateOk c1Tmpl
      decide
    · rcases List.mem_cons.mp h with h2 | h2
      · subst h2
        trivial
      · cases h2
  exact ⟨hops, single_active_invariant (fun _ => none) c1Ops hops⟩

/-- A well-formed template whose second step is conditional and will be
skipped. -/
def cxTmplA : Template :=
  { name := "Full Pipeline", template_key := "APPR-FULL", pipeline_type := "full",
    steps :=
      [ { step_number := 1, step_name := "ISS", approver_role := "branch_chief",
          sla_days := 5, is_enabled := true, is_conditional := false,
          condition_rule := none },
        { step_number := 2, step_name := "Legal Review", approver_role := "legal",
          sla_days := 6, is_enabled := true, is_conditional := true,
          condition_rule := some (RawRule.parsed (Json.obj
            [("field", Json.str "need_by"), ("operator", Json.str "exists")])) } ] }

/-- One submit of `cxTmplA`. -/
def cxOpsA : List Op := [Op.submit (some cxTmplA) 0]

/-- A template violating the documented step-number invariant (two steps
numbered 1). -/
def cxTmplB : Template :=
  { name := "Broken", template_key := "X", pipeline_type := "full",
    steps :=
      [ { step_number := 1, step_name := "ISS", approver_role := "branch_chief",
          sla_days := 5, is_enabled := true, is_conditional := false,
          condition_rule := none },
        { step_number := 1, step_name := "ISS Review", approver_role := "branch_chief",
          sla_days := 5, is_enabled := true, is_conditional := false,
          condition_rule := none },
        { step_number := 2, step_name := "Finance", approver_role := "budget",
          sla_days := 5, is_enabled := true, is_conditional := false,
          condition_rule := none } ] }

/-- Submit the duplicate-numbered template, then approve the active step. -/
def cxOpsB : List Op :=
  [ Op.submit (some cxTmplB) 0,
    Op.approval 0 "approve" "A" none none none 0 ]

/-- C1 counterexample: (a) after one legitimate submit, a `skipped` step
sits after the active one, refuting the claim that all higher-numbered
steps are `pending`; (b) with a template that breaks the documented
step-number invariant, even the pending-or-skipped version fails (a
pending duplicate of the approved step ends up below the newly active
one), which forces the amended claim's template hypothesis. -/
theorem single_active_counterexample :
    (∀ op ∈ cxOpsA, OpOk op) ∧
    ¬ C1Orig (runOps (fun _ => none) cxOpsA initState) ∧
    ¬ C1Post (runOps (fun _ => none) cxOpsB initState) := by
  refine ⟨?_, by decide, by decide⟩
  intro op hop
  rcases List.mem_cons.mp hop with h | h
  · subst h
    intro t ht
    cases ht
    show TemplateOk cxTmplA
    decide
  · cases h
